import Mathlib

/-!
Shallow embedding of the hub75-rs LED-matrix driver (src/lib.rs) and proofs
about it.

Modelling conventions:
* `u8`/`u16`/`usize` values are `Nat`; wrapping or truncating casts are made
  explicit with `% 256`, `% 2^16` or `% 2^32` exactly where the source
  performs a cast or where Rust arithmetic can wrap.
* The compile-time constant `NUM_ROWS` (16, or 32 with the `size-64x64`
  feature) and the const generic `ROW_LENGTH` become explicit parameters.
* The const generic `PIN_POS : Pins` becomes a `Pins` record of bit
  positions; `PINS` builds the mask record `1 <<< pos` exactly as the
  source's associated constant does.  `Pins.valid` states the configuration
  assumption of the driver: the twelve signals sit on twelve distinct bit
  positions of one 16-bit port.  Under `Pins.valid` every `+`/`-` the source
  performs on `output_buffer` moves a mask that is absent/present, so plain
  `Nat` arithmetic agrees with the `u16` arithmetic of the source.
* Writes through the raw port pointer `*self.output_port = w` become lists
  of the written words, in order.
* Rust panics (failed index, failed `assert!`) become `none` in `Option`
  results; infallible paths return `some`.
-/

set_option maxRecDepth 8000

namespace Hub75

/-- The 256-entry gamma lookup table `GAMMA8` from src/lib.rs. -/
def GAMMA8 : List Nat := [
  0, 0, 0, 0, 0, 0, 0, 0, 0, 0, 0, 0, 0, 0, 0, 0, 0, 0, 0, 0, 0, 0, 0, 0, 0, 0, 0, 0, 1, 1, 1, 1,
  1, 1, 1, 1, 1, 1, 1, 1, 1, 2, 2, 2, 2, 2, 2, 2, 2, 3, 3, 3, 3, 3, 3, 3, 4, 4, 4, 4, 4, 5, 5, 5,
  5, 6, 6, 6, 6, 7, 7, 7, 7, 8, 8, 8, 9, 9, 9, 10, 10, 10, 11, 11, 11, 12, 12, 13, 13, 13, 14,
  14, 15, 15, 16, 16, 17, 17, 18, 18, 19, 19, 20, 20, 21, 21, 22, 22, 23, 24, 24, 25, 25, 26, 27,
  27, 28, 29, 29, 30, 31, 32, 32, 33, 34, 35, 35, 36, 37, 38, 39, 39, 40, 41, 42, 43, 44, 45, 46,
  47, 48, 49, 50, 50, 51, 52, 54, 55, 56, 57, 58, 59, 60, 61, 62, 63, 64, 66, 67, 68, 69, 70, 72,
  73, 74, 75, 77, 78, 79, 81, 82, 83, 85, 86, 87, 89, 90, 92, 93, 95, 96, 98, 99, 101, 102, 104,
  105, 107, 109, 110, 112, 114, 115, 117, 119, 120, 122, 124, 126, 127, 129, 131, 133, 135, 137,
  138, 140, 142, 144, 146, 148, 150, 152, 154, 156, 158, 160, 162, 164, 167, 169, 171, 173, 175,
  177, 180, 182, 184, 186, 189, 191, 193, 196, 198, 200, 203, 205, 208, 210, 213, 215, 218, 220,
  223, 225, 228, 231, 233, 236, 239, 241, 244, 247, 249, 252, 255]

/-- Lookup `GAMMA8[v]` for a channel value `v` (always `< 256` in the source). -/
def gamma (v : Nat) : Nat := GAMMA8.getD v 0

/-- One framebuffer cell: the tuple `(u8, u8, u8, u8, u8, u8)` of the source,
fields `.0`–`.5` = `(r1, g1, b1, r2, g2, b2)` duty values. -/
structure Cell where
  e0 : Nat
  e1 : Nat
  e2 : Nat
  e3 : Nat
  e4 : Nat
  e5 : Nat
deriving DecidableEq, Repr

/-- The `data` field of `Hub75`: a row-major 2D array of cells. -/
abbrev Frame := List (List Cell)

/-- Read `data[i][j]` (out-of-range reads return a zero cell; the proofs only
use it in range). -/
def getCell (fb : Frame) (i j : Nat) : Cell :=
  (fb.getD i []).getD j ⟨0, 0, 0, 0, 0, 0⟩

/-- The write `data[i][j] = f data[i][j]`.  A Rust out-of-bounds index panics,
modelled by `none`. -/
def modifyCell (fb : Frame) (i j : Nat) (f : Cell → Cell) : Option Frame :=
  (fb[i]?).bind fun row => (row[j]?).map fun c => fb.set i (row.set j (f c))

/-- The all-zero framebuffer `[[(0,0,0,0,0,0); ROW_LENGTH]; rows]` built by `new`. -/
def mkFrame (rows L : Nat) : Frame :=
  List.replicate rows (List.replicate L ⟨0, 0, 0, 0, 0, 0⟩)

/-- The `Pins` record of src/lib.rs.  As the const generic `PIN_POS` it holds
bit positions; as the associated constant `PINS` it holds the masks
`1 << position`. -/
structure Pins where
  r1 : Nat
  g1 : Nat
  b1 : Nat
  r2 : Nat
  g2 : Nat
  b2 : Nat
  a : Nat
  b : Nat
  c : Nat
  clock : Nat
  latch : Nat
  oe : Nat
deriving DecidableEq, Repr

/-- The associated constant `Self::PINS`: each field becomes `1 << PIN_POS.field`. -/
def PINS (P : Pins) : Pins where
  r1 := 1 <<< P.r1
  g1 := 1 <<< P.g1
  b1 := 1 <<< P.b1
  r2 := 1 <<< P.r2
  g2 := 1 <<< P.g2
  b2 := 1 <<< P.b2
  a := 1 <<< P.a
  b := 1 <<< P.b
  c := 1 <<< P.c
  clock := 1 <<< P.clock
  latch := 1 <<< P.latch
  oe := 1 <<< P.oe

/-- The twelve pin positions of a `PIN_POS` configuration, in declaration order. -/
def Pins.list (P : Pins) : List Nat :=
  [P.r1, P.g1, P.b1, P.r2, P.g2, P.b2, P.a, P.b, P.c, P.clock, P.latch, P.oe]

/-- A sane pin configuration: twelve distinct bit positions of one `u16` port.
This is the implicit hardware assumption of the driver (each logical signal
occupies its own bit of the output word). -/
def Pins.valid (P : Pins) : Prop :=
  P.list.Nodup ∧ ∀ x ∈ P.list, x < 16

instance (P : Pins) : Decidable P.valid := by
  unfold Pins.valid; infer_instance

/-- A word assembled from guarded single-bit masks, the normal form in which
we reason about every value the driver stores into `output_buffer`.  Each
entry `(bset, p)` contributes `2^p` when `bset` is true. -/
def pinWord : List (Bool × Nat) → Nat
  | [] => 0
  | e :: l => (if e.1 then 2 ^ e.2 else 0) + pinWord l

/-- The state of a `Hub75` engine (the raw port pointer is externalized into
the write traces below). -/
structure Hub75State where
  data : Frame
  brightness_step : Nat
  brightness_count : Nat
  brightness_bits : Nat
deriving DecidableEq, Repr

/-- The constructor `Hub75::new` for a build with `NUM_ROWS = rows` and
`ROW_LENGTH = L` (non-multiplexed data layout uses `rows` buffer rows; the
stripe-multiplexing layout passes `rows / 2` here).  The failed
`assert!(brightness_bits < 9 && brightness_bits > 0)` is a panic, i.e. `none`.
`brightness_step` is a `u8` (`1 << (8 - bits)`), `brightness_count` is
`((1 << bits as u16) - 1) as u8`. -/
def newHub75 (bufRows L brightness_bits : Nat) : Option Hub75State :=
  if brightness_bits < 9 ∧ brightness_bits > 0 then
    some
      { data := mkFrame bufRows L
        brightness_step := (1 <<< (8 - brightness_bits)) % 256
        brightness_count := ((1 <<< brightness_bits) - 1) % 256
        brightness_bits := brightness_bits }
  else none

/-- `u8::saturating_mul` on values `< 256`. -/
def satMul8 (a b : Nat) : Nat := min (a * b) 255

/-- The sequence of thresholds one `output` call passes to `output_single`:
the loop `for mut brightness in 0..count { brightness = (brightness + 1)
.saturating_mul(step); ... }`. -/
def thresholds (stepv cnt : Nat) : List Nat :=
  (List.range cnt).map fun i => satMul8 (i + 1) stepv

/-- The row-address word both output routines build from the row counter:
`if count & 1 { a } + if count & 2 { b } + if count & 4 { c }`. -/
def addrWord (P : Pins) (count : Nat) : Nat :=
  (if count &&& 1 ≠ 0 then (PINS P).a else 0) +
  (if count &&& 2 ≠ 0 then (PINS P).b else 0) +
  (if count &&& 4 ≠ 0 then (PINS P).c else 0)

/-- The word `output_single` shifts out for one cell (clock high): latch plus
the color masks of the duty values that reach the threshold, plus clock. -/
def pwmElementWord (P : Pins) (brightness : Nat) (e : Cell) : Nat :=
  let ob := (PINS P).latch + 0
  let ob := if brightness ≤ e.e0 then ob + (PINS P).r1 else ob
  let ob := if brightness ≤ e.e1 then ob + (PINS P).g1 else ob
  let ob := if brightness ≤ e.e2 then ob + (PINS P).b1 else ob
  let ob := if brightness ≤ e.e3 then ob + (PINS P).r2 else ob
  let ob := if brightness ≤ e.e4 then ob + (PINS P).g2 else ob
  let ob := if brightness ≤ e.e5 then ob + (PINS P).b2 else ob
  ob + (PINS P).clock

/-- All port writes `output_single` performs for one buffer row `count`:
two writes per cell (clock high, clock low), then the output-enable/latch/
row-address tail of the loop body. -/
def pwmRow (P : Pins) (brightness count : Nat) (row : List Cell) : List Nat :=
  let elemWrites :=
    (row.map fun e => [pwmElementWord P brightness e, pwmElementWord P brightness e - (PINS P).clock]).flatten
  let obLoop := row.foldl (fun _ e => pwmElementWord P brightness e - (PINS P).clock) ((PINS P).latch + 0)
  let w1 := obLoop + (PINS P).oe - (PINS P).latch
  let w2 := w1 + (PINS P).latch
  let w3 := w2 + addrWord P count
  let w4 := w3 - (PINS P).oe
  elemWrites ++ [w1, w2, w3, w4]

/-- The enumerated row loop of `output_single`. -/
def outputSingleGo (P : Pins) (brightness : Nat) : Nat → List (List Cell) → List (List Nat)
  | _, [] => []
  | count, row :: rest => pwmRow P brightness count row :: outputSingleGo P brightness (count + 1) rest

/-- All port writes of one `output_single` call, grouped by buffer row (the
port sees the concatenation). -/
def outputSingle (P : Pins) (brightness : Nat) (data : Frame) : List (List Nat) :=
  outputSingleGo P brightness 0 data

/-- One full `output` call: one `output_single` pass per threshold. -/
def outputTrace (P : Pins) (stepv cnt : Nat) (data : Frame) : List (List (List Nat)) :=
  (thresholds stepv cnt).map fun t => outputSingle P t data

/-- Bitwise complement of a `u16`, the `!mask` of the source. -/
def bnot16 (m : Nat) : Nat := 65535 ^^^ m

/-- The word `output_single_bcm` shifts out for one cell (clock high):
the carried `address` word plus the color masks of the duty values whose
`bit`-plane is set, plus clock. -/
def bcmElementWord (P : Pins) (mask address : Nat) (e : Cell) : Nat :=
  let ob := address
  let ob := if e.e0 &&& mask ≠ 0 then ob + (PINS P).r1 else ob
  let ob := if e.e1 &&& mask ≠ 0 then ob + (PINS P).g1 else ob
  let ob := if e.e2 &&& mask ≠ 0 then ob + (PINS P).b1 else ob
  let ob := if e.e3 &&& mask ≠ 0 then ob + (PINS P).r2 else ob
  let ob := if e.e4 &&& mask ≠ 0 then ob + (PINS P).g2 else ob
  let ob := if e.e5 &&& mask ≠ 0 then ob + (PINS P).b2 else ob
  ob + (PINS P).clock

/-- One row of the `output_single_bcm` loop.  Takes the carried
`output_buffer` and `address` values, returns the writes of this row
together with the new `output_buffer` and `address`. -/
def bcmRow (P : Pins) (mask obIn address count : Nat) (row : List Cell) :
    List Nat × Nat × Nat :=
  let elemWrites :=
    (row.map fun e => [bcmElementWord P mask address e, bcmElementWord P mask address e - (PINS P).clock]).flatten
  let obLoop := row.foldl (fun _ e => bcmElementWord P mask address e - (PINS P).clock) obIn
  let ob1 := (obLoop ||| (PINS P).oe) &&& bnot16 (PINS P).latch
  let ob2 := ob1 ||| (PINS P).latch
  let address2 := addrWord P count
  let ob3 := (ob2 &&& bnot16 ((PINS P).a + (PINS P).b + (PINS P).c)) + address2
  let ob4 := ob3 &&& bnot16 (PINS P).oe
  (elemWrites ++ [ob1, ob3, ob4], ob4, address2)

/-- The enumerated row loop of `output_single_bcm`, collecting the per-row
write blocks and the final `output_buffer`. -/
def bcmGo (P : Pins) (mask : Nat) : Nat → Nat → Nat → List (List Cell) → List (List Nat) × Nat
  | ob, _, _, [] => ([], ob)
  | ob, address, count, row :: rest =>
    let r := bcmRow P mask ob address count row
    let rec2 := bcmGo P mask r.2.1 r.2.2 (count + 1) rest
    (r.1 :: rec2.1, rec2.2)

/-- All port writes of one `output_single_bcm` call with bit plane `bit`:
the per-row blocks, then the final write that re-disables output after the
trailing delay.  `output_buffer` starts at 0 and `address` starts as the
output-enable mask, exactly as in the source. -/
def outputSingleBcm (P : Pins) (bit : Nat) (data : Frame) : List (List Nat) :=
  let r := bcmGo P (1 <<< bit) 0 ((PINS P).oe) 0 data
  r.1 ++ [[r.2 ||| (PINS P).oe]]

/-- The bit planes `output_bcm` scans, in loop order: `bit + shift` for
`bit in 0..brightness_bits`, where `shift = 8 - brightness_bits`. -/
def bcmPlanes (bits : Nat) : List Nat :=
  (List.range bits).map fun bit => bit + (8 - bits)

/-- One full `output_bcm` call: for each loop index `bit`, the
`output_single_bcm` pass for plane `bit + shift` paired with the dwell delay
`delay_base_us * (1 << bit)` requested after it (`u8` arithmetic, so the
product wraps modulo 256). -/
def outputBcm (P : Pins) (bits base : Nat) (data : Frame) : List (List (List Nat) × Nat) :=
  (List.range bits).map fun bit =>
    (outputSingleBcm P (bit + (8 - bits)) data, (base * ((1 <<< bit) % 256)) % 256)

/-- The cast `usize as i32` applied to `ROW_LENGTH` and `NUM_ROWS * 2`
(truncation to 32 bits, then two's-complement reinterpretation). -/
def i32ofNat (n : Nat) : Int :=
  if n % 2 ^ 32 < 2 ^ 31 then (n % 2 ^ 32 : Nat) else (n % 2 ^ 32 : Nat) - 2 ^ 32

/-- The cast `i32 as usize` on a 32-bit target: negative values wrap into
`[2^31, 2^32)`. -/
def usizeOfI32 (i : Int) : Nat := (i % 2 ^ 32).toNat

/-- The store of the gamma-corrected color into the top half-slot (fields
`.0`, `.1`, `.2`) of a cell. -/
def putTop (r g b : Nat) (cell : Cell) : Cell :=
  { cell with e0 := gamma r, e1 := gamma g, e2 := gamma b }

/-- The store of the gamma-corrected color into the bottom half-slot (fields
`.3`, `.4`, `.5`) of a cell. -/
def putBottom (r g b : Nat) (cell : Cell) : Cell :=
  { cell with e3 := gamma r, e4 := gamma g, e5 := gamma b }

/-- `draw_pixel` of the non-multiplexed build (`NUM_ROWS = NR`,
`ROW_LENGTH = L`); coordinates are the two `i32`s of the embedded-graphics
`Pixel`, color channels are the `u8` triple. -/
def drawPixelNM (NR L : Nat) (fb : Frame) (column row : Int) (r g b : Nat) :
    Option Frame :=
  if column < 0 ∨ column ≥ i32ofNat L ∨ row < 0 ∨ row ≥ i32ofNat (NR * 2) then
    some fb
  else
    modifyCell fb (row.toNat % NR) column.toNat fun cell =>
      if 15 < row then putBottom r g b cell else putTop r g b cell

/-- `draw_pixel` of the stripe-multiplexing build: the two coordinates are
cast to `usize` first, the buffer has `NR / 2` rows and the column is
remapped across the 32-wide stripes. -/
def drawPixelStripe (NR L : Nat) (fb : Frame) (cx cy : Int) (r g b : Nat) :
    Option Frame :=
  let x := usizeOfI32 cx
  let y := usizeOfI32 cy
  if x < 0 ∨ x ≥ L / 2 ∨ y < 0 ∨ y ≥ NR * 2 then
    some fb
  else
    let is_top_stripe := y % NR < NR / 2
    let screen_offset := x / 32
    let x2 := x + screen_offset * 32
    let x3 := if is_top_stripe then x2 + 32 else x2
    let row := y % (NR / 2)
    modifyCell fb row x3 fun cell =>
      if 15 < y then putBottom r g b cell else putTop r g b cell

/-- `draw_iter` over the non-multiplexed `draw_pixel`: sequential application,
propagating a panic. -/
def drawIterNM (NR L : Nat) (fb : Frame) :
    List ((Int × Int) × Nat × Nat × Nat) → Option Frame
  | [] => some fb
  | px :: rest =>
    match drawPixelNM NR L fb px.1.1 px.1.2 px.2.1 px.2.2.1 px.2.2.2 with
    | none => none
    | some fb2 => drawIterNM NR L fb2 rest

/-- `draw_iter` over the stripe-multiplexing `draw_pixel`. -/
def drawIterStripe (NR L : Nat) (fb : Frame) :
    List ((Int × Int) × Nat × Nat × Nat) → Option Frame
  | [] => some fb
  | px :: rest =>
    match drawPixelStripe NR L fb px.1.1 px.1.2 px.2.1 px.2.2.1 px.2.2.2 with
    | none => none
    | some fb2 => drawIterStripe NR L fb2 rest

/-- The unchecked store `data[i][j] = cell` used by `clear`, whose indices are
always within the compile-time array bounds. -/
def setCellUnchecked (fb : Frame) (i j : Nat) (cell : Cell) : Frame :=
  fb.set i ((fb.getD i []).set j cell)

/-- The cell value `clear` stores everywhere: the gamma-corrected color in
both half-slots. -/
def clearCell (r g b : Nat) : Cell :=
  ⟨gamma r, gamma g, gamma b, gamma r, gamma g, gamma b⟩

/-- The nested loop of `clear`: `for row in 0..rows { for column in 0..L {
data[row][column] = gamma-corrected color (both halves) } }`. -/
def clearColor (rows L r g b : Nat) (fb : Frame) : Frame :=
  (List.range rows).foldl
    (fun d row =>
      (List.range L).foldl (fun d2 column => setCellUnchecked d2 row column (clearCell r g b)) d)
    fb

/-- Normal form of the six guarded color masks of `pwmElementWord`. -/
def pwmColorList (P : Pins) (brightness : Nat) (e : Cell) : List (Bool × Nat) :=
  [(decide (brightness ≤ e.e0), P.r1), (decide (brightness ≤ e.e1), P.g1),
   (decide (brightness ≤ e.e2), P.b1), (decide (brightness ≤ e.e3), P.r2),
   (decide (brightness ≤ e.e4), P.g2), (decide (brightness ≤ e.e5), P.b2)]

/-- Normal form of the six guarded color masks of `bcmElementWord`. -/
def bcmColorList (P : Pins) (mask : Nat) (e : Cell) : List (Bool × Nat) :=
  [(decide (e.e0 &&& mask ≠ 0), P.r1), (decide (e.e1 &&& mask ≠ 0), P.g1),
   (decide (e.e2 &&& mask ≠ 0), P.b1), (decide (e.e3 &&& mask ≠ 0), P.r2),
   (decide (e.e4 &&& mask ≠ 0), P.g2), (decide (e.e5 &&& mask ≠ 0), P.b2)]

/-- Normal form of the row-address word `addrWord`. -/
def addrList (P : Pins) (count : Nat) : List (Bool × Nat) :=
  [(decide (count &&& 1 ≠ 0), P.a), (decide (count &&& 2 ≠ 0), P.b),
   (decide (count &&& 4 ≠ 0), P.c)]

/-- A concrete sane pin layout, used to instantiate the theorems below on
concrete inputs. -/
def examplePins : Pins := ⟨0, 1, 2, 3, 4, 5, 6, 7, 8, 9, 10, 11⟩

/-- The framebuffer has the dimensions fixed by the const generics:
`rows` rows, each of length `L`.  Guaranteed by construction in the source
(`data: [[(u8,...); ROW_LENGTH]; rows]`). -/
def Shape (fb : Frame) (rows L : Nat) : Prop :=
  fb.length = rows ∧ ∀ k, k < rows → (fb.getD k []).length = L

instance (fb : Frame) (rows L : Nat) : Decidable (Shape fb rows L) := by
  unfold Shape; infer_instance

/-! ### Bit-level toolkit -/

theorem pinWord_append (l1 l2 : List (Bool × Nat)) :
    pinWord (l1 ++ l2) = pinWord l1 + pinWord l2 := by
  induction l1 with
  | nil => simp [pinWord]
  | cons e l ih => simp [pinWord, ih]; omega

/-- Key bit-extraction step: adding a power of two whose bit is absent sets
exactly that bit. -/
theorem testBit_two_pow_add (p x q : Nat) (hx : x.testBit p = false) :
    (2 ^ p + x).testBit q = (decide (q = p) || x.testBit q) := by
  have hlo : x % 2 ^ (p + 1) < 2 ^ p := by
    by_contra hge
    push_neg at hge
    obtain ⟨i, hip, hbit⟩ := Nat.ge_two_pow_implies_high_bit_true hge
    have hi2 : i < p + 1 := by
      by_contra hlt
      push_neg at hlt
      have : x % 2 ^ (p + 1) < 2 ^ i :=
        lt_of_lt_of_le (Nat.mod_lt _ (Nat.two_pow_pos _)) (Nat.pow_le_pow_right (by norm_num) hlt)
      rw [Nat.testBit_lt_two_pow this] at hbit
      exact Bool.false_ne_true hbit
    have hip' : i = p := by omega
    rw [hip', Nat.testBit_mod_two_pow] at hbit
    simp at hbit
    rw [hx] at hbit
    exact Bool.false_ne_true hbit
  have hdecomp : x = 2 ^ (p + 1) * (x / 2 ^ (p + 1)) + x % 2 ^ (p + 1) :=
    (Nat.div_add_mod x (2 ^ (p + 1))).symm
  have hlo2 : x % 2 ^ (p + 1) < 2 ^ (p + 1) := Nat.mod_lt _ (Nat.two_pow_pos _)
  have hsum : 2 ^ p + x % 2 ^ (p + 1) < 2 ^ (p + 1) := by
    have : (2 : Nat) ^ (p + 1) = 2 ^ p + 2 ^ p := by ring
    omega
  have hx2 : 2 ^ p + x = 2 ^ (p + 1) * (x / 2 ^ (p + 1)) + (2 ^ p + x % 2 ^ (p + 1)) := by
    omega
  conv_rhs => rw [hdecomp]
  rw [hx2, Nat.testBit_mul_pow_two_add _ hsum, Nat.testBit_mul_pow_two_add _ hlo2]
  by_cases hq : q < p + 1
  · simp only [hq, if_true]
    rcases Nat.lt_or_ge q p with hq2 | hq2
    · rw [Nat.testBit_two_pow_add_gt hq2]
      simp
      omega
    · have hqp : q = p := by omega
      subst hqp
      rw [Nat.testBit_two_pow_add_eq]
      have h0 : (x % 2 ^ (q + 1)).testBit q = false := Nat.testBit_lt_two_pow hlo
      simp [h0]
  · simp only [hq, if_false]
    have : ¬ q = p := by omega
    simp [this]

/-- Bits of a guarded-mask word, provided the mask positions are distinct:
bit `q` is set exactly when some entry with a true guard sits at position `q`. -/
theorem testBit_pinWord (l : List (Bool × Nat)) (hnd : (l.map Prod.snd).Nodup) (q : Nat) :
    (pinWord l).testBit q = l.any (fun e => e.1 && decide (e.2 = q)) := by
  induction l generalizing q with
  | nil => simp [pinWord]
  | cons e l ih =>
    simp only [List.map_cons, List.nodup_cons] at hnd
    obtain ⟨hmem, hnd'⟩ := hnd
    cases he : e.1 with
    | true =>
      have hrest : (pinWord l).testBit e.2 = false := by
        rw [ih hnd' e.2]
        simp only [List.any_eq_false]
        intro x hx
        simp only [Bool.and_eq_true, decide_eq_true_eq, not_and]
        intro _ hxq
        exact hmem (hxq ▸ List.mem_map_of_mem Prod.snd hx)
      simp only [pinWord, he, if_true]
      rw [testBit_two_pow_add _ _ _ hrest, ih hnd' q]
      simp [he, Bool.or_comm, eq_comm]
    | false =>
      simp only [pinWord, he, Bool.false_eq_true, if_false, Nat.zero_add]
      rw [ih hnd' q]
      simp [he]


/-! ### Small list helpers -/

theorem getD_range_map {α : Type} (f : Nat → α) (n b : Nat) (d : α) (hb : b < n) :
    (((List.range n).map f).getD b d) = f b := by
  rw [List.getD_eq_getElem?_getD, List.getElem?_map, List.getElem?_range hb]
  rfl

/-! ### Construction (claim C8) -/

/-- C8: `Hub75::new` succeeds exactly for `brightness_bits` in `1..=8` (the
`assert!` panics otherwise, before any output pass can run), and on success
stores `brightness_step = 2^(8-bits)` and `brightness_count = 2^bits - 1`. -/
theorem new_validates_brightness_bits (bufRows L bits : Nat) :
    ((newHub75 bufRows L bits).isSome ↔ 1 ≤ bits ∧ bits ≤ 8) ∧
    ∀ st, newHub75 bufRows L bits = some st →
      st.brightness_step = 2 ^ (8 - bits) ∧ st.brightness_count = 2 ^ bits - 1 := by
  constructor
  · unfold newHub75
    split
    case isTrue h => simp; omega
    case isFalse h => simp at h ⊢; omega
  · intro st hst
    unfold newHub75 at hst
    split at hst
    case isTrue h =>
      have hle : (2 : Nat) ^ (8 - bits) ≤ 2 ^ 7 := Nat.pow_le_pow_right (by norm_num) (by omega)
      have hle2 : (2 : Nat) ^ bits ≤ 2 ^ 8 := Nat.pow_le_pow_right (by norm_num) (by omega)
      have hstep : (1 <<< (8 - bits)) % 256 = 2 ^ (8 - bits) := by
        rw [Nat.one_shiftLeft]
        exact Nat.mod_eq_of_lt (lt_of_le_of_lt hle (by norm_num))
      have hcnt : ((1 <<< bits) - 1) % 256 = 2 ^ bits - 1 := by
        rw [Nat.one_shiftLeft]
        have h256 : (2 : Nat) ^ 8 = 256 := by norm_num
        exact Nat.mod_eq_of_lt (by omega)
      injection hst with hst
      subst hst
      exact ⟨hstep, hcnt⟩
    case isFalse h => cases hst

theorem new_validates_brightness_bits_witness :
    ({ data := mkFrame 2 3, brightness_step := 32, brightness_count := 7,
       brightness_bits := 3 } : Hub75State).brightness_step = 2 ^ (8 - 3) ∧
    ({ data := mkFrame 2 3, brightness_step := 32, brightness_count := 7,
       brightness_bits := 3 } : Hub75State).brightness_count = 2 ^ 3 - 1 :=
  (new_validates_brightness_bits 2 3 3).2 _ (by decide)

/-! ### BCM plane order and dwell times (claims C6, C7) -/

/-- C6, counterexample to the claimed most-significant-first order: with
`brightness_bits = 4` the loop of `output_bcm` scans planes `4, 5, 6, 7` in
this order, so the first plane scanned is bit 4, not bit 7. -/
theorem bcmPlanes_ascending_counterexample :
    bcmPlanes 4 = [4, 5, 6, 7] ∧ (bcmPlanes 4).head? ≠ some 7 := by decide

/-- C7, counterexample: the dwell delay is computed in `u8` arithmetic
(`delay_base_us * (1 << bit)`), so for `brightness_bits = 8`,
`delay_base_us = 2` the last plane's dwell is `(2 * 128) % 256 = 0`, not
`2 * 2^7 = 256`. -/
theorem bcm_dwell_overflow_counterexample :
    ((outputBcm examplePins 8 2 []).getD 7 ([], 0)).2 = 0 ∧ (2 * 2 ^ 7 : Nat) = 256 := by
  decide

/-- C7 (amended): the dwell delay requested after the plane of loop index `b`
is `delay_base_us * 2^b` reduced modulo 256 (`u8` wrapping); in particular it
equals `delay_base_us * 2^b` exactly whenever that product fits in a `u8`,
and then each successive plane dwells twice as long as the previous one. -/
theorem bcm_dwell_doubles (P : Pins) (data : Frame) (bits base b : Nat)
    (hbits : bits ≤ 8) (hb : b < bits) :
    ((outputBcm P bits base data).getD b ([], 0)).2 = base * 2 ^ b % 256 ∧
    (base * 2 ^ b < 256 →
      ((outputBcm P bits base data).getD b ([], 0)).2 = base * 2 ^ b) := by
  have hrw : ((outputBcm P bits base data).getD b ([], 0)).2 = base * ((1 <<< b) % 256) % 256 := by
    unfold outputBcm
    rw [getD_range_map _ _ _ _ hb]
  have hpow : (1 <<< b) = 2 ^ b := Nat.one_shiftLeft b
  have hlt : (2 : Nat) ^ b ≤ 2 ^ 7 := Nat.pow_le_pow_right (by norm_num) (by omega)
  have hmod : (2 : Nat) ^ b % 256 = 2 ^ b :=
    Nat.mod_eq_of_lt (lt_of_le_of_lt hlt (by norm_num))
  rw [hrw, hpow, hmod]
  exact ⟨rfl, fun hfit => Nat.mod_eq_of_lt hfit⟩

theorem bcm_dwell_doubles_witness :
    ((outputBcm examplePins 4 3 []).getD 2 ([], 0)).2 = 3 * 2 ^ 2 % 256 ∧
    (3 * 2 ^ 2 < 256 → ((outputBcm examplePins 4 3 []).getD 2 ([], 0)).2 = 3 * 2 ^ 2) :=
  bcm_dwell_doubles examplePins [] 4 3 2 (by decide) (by decide)

/-! ### Framebuffer access lemmas -/

theorem getD_eq_of_getElem? {α : Type} {l : List α} {i : Nat} {x d : α}
    (h : l[i]? = some x) : l.getD i d = x := by
  rw [List.getD_eq_getElem?_getD, h]
  rfl

theorem modifyCell_isSome_iff {fb : Frame} {i j : Nat} {f : Cell → Cell} :
    (modifyCell fb i j f).isSome ↔ i < fb.length ∧ j < (fb.getD i []).length := by
  unfold modifyCell
  cases hrow : fb[i]? with
  | none =>
    have hi := List.getElem?_eq_none_iff.mp hrow
    rw [Option.none_bind]
    simp only [Option.isSome_none, Bool.false_eq_true, false_iff, not_and]
    intro h1
    omega
  | some row =>
    have hi : i < fb.length := by
      rcases Nat.lt_or_ge i fb.length with h | h
      · exact h
      · rw [List.getElem?_eq_none_iff.mpr h] at hrow; cases hrow
    have hrowD : fb.getD i [] = row := getD_eq_of_getElem? hrow
    rw [Option.some_bind, hrowD]
    cases hcell : row[j]? with
    | none =>
      have hj := List.getElem?_eq_none_iff.mp hcell
      simp only [Option.map_none', Option.isSome_none, Bool.false_eq_true, false_iff, not_and]
      intro _
      omega
    | some cell =>
      have hj : j < row.length := by
        rcases Nat.lt_or_ge j row.length with h | h
        · exact h
        · rw [List.getElem?_eq_none_iff.mpr h] at hcell; cases hcell
      simp only [Option.map_some', Option.isSome_some, true_iff]
      exact ⟨hi, hj⟩

theorem modifyCell_eq {fb : Frame} {i j : Nat} {f : Cell → Cell} {fb2 : Frame}
    (h : modifyCell fb i j f = some fb2) :
    fb2 = fb.set i ((fb.getD i []).set j (f (getCell fb i j))) := by
  unfold modifyCell at h
  cases hrow : fb[i]? with
  | none => rw [hrow, Option.none_bind] at h; cases h
  | some row =>
    rw [hrow, Option.some_bind] at h
    cases hcell : row[j]? with
    | none => rw [hcell, Option.map_none'] at h; cases h
    | some cell =>
      rw [hcell, Option.map_some'] at h
      injection h with h
      have hrowD : fb.getD i [] = row := getD_eq_of_getElem? hrow
      have hcellD : getCell fb i j = cell := by
        unfold getCell
        rw [hrowD]
        exact getD_eq_of_getElem? hcell
      rw [← h, hrowD, hcellD]

theorem getCell_set_self {fb : Frame} {i j : Nat} {cell : Cell}
    (hi : i < fb.length) (hj : j < (fb.getD i []).length) :
    getCell (fb.set i ((fb.getD i []).set j cell)) i j = cell := by
  unfold getCell
  rw [getD_eq_of_getElem? (List.getElem?_set_self (by omega)),
    getD_eq_of_getElem? (List.getElem?_set_self (by simpa using hj))]

theorem getCell_set_ne {fb : Frame} {i j : Nat} {cell : Cell} {i2 j2 : Nat}
    (hne : i ≠ i2 ∨ j ≠ j2) :
    getCell (fb.set i ((fb.getD i []).set j cell)) i2 j2 = getCell fb i2 j2 := by
  unfold getCell
  rcases hne with hne | hne
  · simp [List.getD_eq_getElem?_getD, List.getElem?_set_ne hne]
  · rcases eq_or_ne i i2 with rfl | hi
    · by_cases hi2 : i < fb.length
      · rw [getD_eq_of_getElem? (List.getElem?_set_self (by omega))]
        simp [List.getD_eq_getElem?_getD, List.getElem?_set_ne hne]
      · rw [List.set_eq_of_length_le (by omega)]
    · simp [List.getD_eq_getElem?_getD, List.getElem?_set_ne hi]

theorem set_shape {fb : Frame} {i j : Nat} {cell : Cell} :
    (fb.set i ((fb.getD i []).set j cell)).length = fb.length ∧
    ∀ k, ((fb.set i ((fb.getD i []).set j cell)).getD k []).length = (fb.getD k []).length := by
  refine ⟨List.length_set .., fun k => ?_⟩
  rcases eq_or_ne i k with rfl | hik
  · by_cases hi : i < fb.length
    · rw [getD_eq_of_getElem? (List.getElem?_set_self (by omega))]
      exact List.length_set ..
    · rw [List.set_eq_of_length_le (by omega)]
  · simp [List.getD_eq_getElem?_getD, List.getElem?_set_ne hik]

/-! ### Pixel-write lemmas -/

theorem i32ofNat_small {n : Nat} (h : n < 2 ^ 31) : i32ofNat n = n := by
  unfold i32ofNat
  rw [Nat.mod_eq_of_lt (by omega), if_pos h]

theorem usizeOfI32_of_nonneg {i : Int} (h0 : 0 ≤ i) (h1 : i < 2 ^ 32) :
    usizeOfI32 i = i.toNat := by
  unfold usizeOfI32
  rw [Int.emod_eq_of_lt h0 h1]

theorem usizeOfI32_of_neg {i : Int} (h0 : -2 ^ 31 ≤ i) (h1 : i < 0) :
    2 ^ 31 ≤ usizeOfI32 i := by
  unfold usizeOfI32
  have h2 : i % 2 ^ 32 = i + 2 ^ 32 := by omega
  omega

theorem stripe_col_lt {m xv : Nat} (hx : xv < 32 * m) {t : Nat} (ht : t ≤ 32) :
    xv + xv / 32 * 32 + t < 64 * m := by
  have h1 : xv / 32 < m := Nat.div_lt_of_lt_mul hx
  have h2 : xv / 32 * 32 ≤ xv := Nat.div_mul_le_self xv 32
  omega

theorem drawPixelNM_oob (NR L : Nat) (fb : Frame) (x y : Int) (r g b : Nat)
    (hL : L < 2 ^ 31) (hNR : NR * 2 < 2 ^ 31)
    (hoob : x < 0 ∨ (L : Int) ≤ x ∨ y < 0 ∨ ((NR * 2 : Nat) : Int) ≤ y) :
    drawPixelNM NR L fb x y r g b = some fb := by
  unfold drawPixelNM
  rw [if_pos]
  rw [i32ofNat_small hL, i32ofNat_small (by omega)]
  push_cast
  omega

theorem drawPixelNM_inb (NR L : Nat) (fb : Frame) (x y : Int) (r g b : Nat)
    (hshape : Shape fb NR L) (hL : L < 2 ^ 31) (hNR : NR * 2 < 2 ^ 31)
    (hx0 : 0 ≤ x) (hx : x.toNat < L) (hy0 : 0 ≤ y) (hy : y.toNat < NR * 2) :
    ∃ fb2, drawPixelNM NR L fb x y r g b = some fb2 ∧
      getCell fb2 (y.toNat % NR) x.toNat =
        (if 15 < y then putBottom r g b (getCell fb (y.toNat % NR) x.toNat)
         else putTop r g b (getCell fb (y.toNat % NR) x.toNat)) ∧
      (∀ i2 j2, i2 ≠ y.toNat % NR ∨ j2 ≠ x.toNat →
        getCell fb2 i2 j2 = getCell fb i2 j2) ∧
      Shape fb2 NR L := by
  obtain ⟨hlen, hrows⟩ := hshape
  have hNR0 : 0 < NR := by omega
  have hrowlt : y.toNat % NR < NR := Nat.mod_lt _ hNR0
  have hguard : ¬ (x < 0 ∨ x ≥ i32ofNat L ∨ y < 0 ∨ y ≥ i32ofNat (NR * 2)) := by
    rw [i32ofNat_small hL, i32ofNat_small (by omega)]
    push_neg
    refine ⟨hx0, by omega, hy0, by omega⟩
  unfold drawPixelNM
  rw [if_neg hguard]
  have hsome : (modifyCell fb (y.toNat % NR) x.toNat fun cell =>
      if 15 < y then putBottom r g b cell else putTop r g b cell).isSome := by
    rw [modifyCell_isSome_iff]
    exact ⟨by omega, by rw [hrows _ hrowlt]; omega⟩
  obtain ⟨fb2, hfb2⟩ := Option.isSome_iff_exists.mp hsome
  refine ⟨fb2, hfb2, ?_, ?_, ?_⟩
  · rw [modifyCell_eq hfb2]
    rw [getCell_set_self (by omega) (by rw [hrows _ hrowlt]; omega)]
  · intro i2 j2 hne
    rw [modifyCell_eq hfb2, getCell_set_ne (by tauto)]
  · rw [modifyCell_eq hfb2]
    obtain ⟨hs1, hs2⟩ := @set_shape fb (y.toNat % NR) x.toNat
      (if 15 < y then putBottom r g b (getCell fb (y.toNat % NR) x.toNat)
       else putTop r g b (getCell fb (y.toNat % NR) x.toNat))
    constructor
    · rw [hs1, hlen]
    · intro k hk
      rw [hs2 k, hrows k hk]

theorem drawPixelNM_isSome (NR L : Nat) (fb : Frame) (x y : Int) (r g b : Nat)
    (hshape : Shape fb NR L) (hL : L < 2 ^ 31) (hNR : NR * 2 < 2 ^ 31) :
    ∃ fb2, drawPixelNM NR L fb x y r g b = some fb2 ∧ Shape fb2 NR L := by
  by_cases hoob : x < 0 ∨ (L : Int) ≤ x ∨ y < 0 ∨ ((NR * 2 : Nat) : Int) ≤ y
  · exact ⟨fb, drawPixelNM_oob NR L fb x y r g b hL hNR hoob, hshape⟩
  · push_neg at hoob
    obtain ⟨h1, h2, h3, h4⟩ := hoob
    obtain ⟨fb2, hfb2, _, _, hsh⟩ :=
      drawPixelNM_inb NR L fb x y r g b hshape hL hNR h1 (by omega) h3 (by omega)
    exact ⟨fb2, hfb2, hsh⟩

theorem drawIterNM_isSome (NR L : Nat) (fb : Frame)
    (pixels : List ((Int × Int) × Nat × Nat × Nat))
    (hshape : Shape fb NR L) (hL : L < 2 ^ 31) (hNR : NR * 2 < 2 ^ 31) :
    (drawIterNM NR L fb pixels).isSome := by
  induction pixels generalizing fb with
  | nil => simp [drawIterNM]
  | cons px rest ih =>
    obtain ⟨fb2, hfb2, hsh⟩ :=
      drawPixelNM_isSome NR L fb px.1.1 px.1.2 px.2.1 px.2.2.1 px.2.2.2 hshape hL hNR
    unfold drawIterNM
    rw [hfb2]
    exact ih fb2 hsh

theorem drawPixelStripe_oob (NR L : Nat) (fb : Frame) (cx cy : Int) (r g b : Nat)
    (hL : L < 2 ^ 31) (hNR : NR * 2 < 2 ^ 31)
    (hx32 : -2 ^ 31 ≤ cx) (hx32b : cx < 2 ^ 31) (hy32 : -2 ^ 31 ≤ cy) (hy32b : cy < 2 ^ 31)
    (hoob : ¬ (0 ≤ cx ∧ cx.toNat < L / 2 ∧ 0 ≤ cy ∧ cy.toNat < NR * 2)) :
    drawPixelStripe NR L fb cx cy r g b = some fb := by
  unfold drawPixelStripe
  rw [if_pos]
  rcases Int.lt_or_le cx 0 with hcx | hcx
  · have hge := usizeOfI32_of_neg hx32 hcx
    right; left
    omega
  · rw [usizeOfI32_of_nonneg hcx (by omega)]
    rcases Int.lt_or_le cy 0 with hcy | hcy
    · have hge := usizeOfI32_of_neg hy32 hcy
      right; right; right
      omega
    · rw [usizeOfI32_of_nonneg hcy (by omega)]
      have : cx.toNat ≥ L / 2 ∨ cy.toNat ≥ NR * 2 := by
        by_contra hcon
        push_neg at hcon
        exact hoob ⟨hcx, by omega, hcy, by omega⟩
      tauto

theorem drawPixelStripe_inb (NR L : Nat) (fb : Frame) (cx cy : Int) (r g b : Nat)
    (hshape : Shape fb (NR / 2) L) (hdiv : 64 ∣ L) (hNR2 : 2 ≤ NR)
    (hL : L < 2 ^ 31) (hNR : NR * 2 < 2 ^ 31)
    (hx0 : 0 ≤ cx) (hx : cx.toNat < L / 2) (hy0 : 0 ≤ cy) (hy : cy.toNat < NR * 2) :
    ∃ fb2, drawPixelStripe NR L fb cx cy r g b = some fb2 ∧
      (let row := cy.toNat % (NR / 2)
       let col := cx.toNat + cx.toNat / 32 * 32 + (if cy.toNat % NR < NR / 2 then 32 else 0)
       getCell fb2 row col =
        (if 15 < cy.toNat then putBottom r g b (getCell fb row col)
         else putTop r g b (getCell fb row col)) ∧
       (∀ i2 j2, i2 ≠ row ∨ j2 ≠ col → getCell fb2 i2 j2 = getCell fb i2 j2)) ∧
      Shape fb2 (NR / 2) L := by
  obtain ⟨hlen, hrows⟩ := hshape
  obtain ⟨m, rfl⟩ := hdiv
  have hhalf : 0 < NR / 2 := by omega
  have hrowlt : cy.toNat % (NR / 2) < NR / 2 := Nat.mod_lt _ hhalf
  have hL2 : 64 * m / 2 = 32 * m := by omega
  have hcol : cx.toNat + cx.toNat / 32 * 32 + (if cy.toNat % NR < NR / 2 then 32 else 0) < 64 * m := by
    refine stripe_col_lt (by omega) ?_
    split <;> omega
  unfold drawPixelStripe
  rw [usizeOfI32_of_nonneg hx0 (by omega), usizeOfI32_of_nonneg hy0 (by omega)]
  rw [if_neg (by push_neg; refine ⟨by omega, by omega, by omega, by omega⟩)]
  dsimp only
  have hite : (if cy.toNat % NR < NR / 2 then cx.toNat + cx.toNat / 32 * 32 + 32
      else cx.toNat + cx.toNat / 32 * 32) =
      cx.toNat + cx.toNat / 32 * 32 + (if cy.toNat % NR < NR / 2 then 32 else 0) := by
    split <;> omega
  rw [hite]
  have hsome : (modifyCell fb (cy.toNat % (NR / 2))
      (cx.toNat + cx.toNat / 32 * 32 + (if cy.toNat % NR < NR / 2 then 32 else 0)) fun cell =>
      if 15 < cy.toNat then putBottom r g b cell else putTop r g b cell).isSome := by
    rw [modifyCell_isSome_iff]
    exact ⟨by omega, by rw [hrows _ hrowlt]; omega⟩
  obtain ⟨fb2, hfb2⟩ := Option.isSome_iff_exists.mp hsome
  refine ⟨fb2, hfb2, ⟨?_, ?_⟩, ?_⟩
  · rw [modifyCell_eq hfb2]
    rw [getCell_set_self (by omega) (by rw [hrows _ hrowlt]; omega)]
  · intro i2 j2 hne
    rw [modifyCell_eq hfb2, getCell_set_ne (by tauto)]
  · rw [modifyCell_eq hfb2]
    obtain ⟨hs1, hs2⟩ := @set_shape fb (cy.toNat % (NR / 2))
      (cx.toNat + cx.toNat / 32 * 32 + (if cy.toNat % NR < NR / 2 then 32 else 0))
      (if 15 < cy.toNat
       then putBottom r g b (getCell fb (cy.toNat % (NR / 2))
         (cx.toNat + cx.toNat / 32 * 32 + (if cy.toNat % NR < NR / 2 then 32 else 0)))
       else putTop r g b (getCell fb (cy.toNat % (NR / 2))
         (cx.toNat + cx.toNat / 32 * 32 + (if cy.toNat % NR < NR / 2 then 32 else 0))))
    constructor
    · rw [hs1, hlen]
    · intro k hk
      rw [hs2 k, hrows k hk]

theorem drawPixelStripe_isSome (NR L : Nat) (fb : Frame) (cx cy : Int) (r g b : Nat)
    (hshape : Shape fb (NR / 2) L) (hdiv : 64 ∣ L) (hNR2 : 2 ≤ NR)
    (hL : L < 2 ^ 31) (hNR : NR * 2 < 2 ^ 31)
    (hx32 : -2 ^ 31 ≤ cx) (hx32b : cx < 2 ^ 31) (hy32 : -2 ^ 31 ≤ cy) (hy32b : cy < 2 ^ 31) :
    ∃ fb2, drawPixelStripe NR L fb cx cy r g b = some fb2 ∧ Shape fb2 (NR / 2) L := by
  by_cases hinb : 0 ≤ cx ∧ cx.toNat < L / 2 ∧ 0 ≤ cy ∧ cy.toNat < NR * 2
  · obtain ⟨h1, h2, h3, h4⟩ := hinb
    obtain ⟨fb2, hfb2, _, hsh⟩ :=
      drawPixelStripe_inb NR L fb cx cy r g b ⟨hshape.1, hshape.2⟩ hdiv hNR2 hL hNR h1 h2 h3 h4
    exact ⟨fb2, hfb2, hsh⟩
  · exact ⟨fb, drawPixelStripe_oob NR L fb cx cy r g b hL hNR hx32 hx32b hy32 hy32b hinb, hshape⟩

theorem drawIterStripe_isSome (NR L : Nat) (fb : Frame)
    (pixels : List ((Int × Int) × Nat × Nat × Nat))
    (hshape : Shape fb (NR / 2) L) (hdiv : 64 ∣ L) (hNR2 : 2 ≤ NR)
    (hL : L < 2 ^ 31) (hNR : NR * 2 < 2 ^ 31)
    (hpx : ∀ p ∈ pixels, -2 ^ 31 ≤ p.1.1 ∧ p.1.1 < 2 ^ 31 ∧ -2 ^ 31 ≤ p.1.2 ∧ p.1.2 < 2 ^ 31) :
    (drawIterStripe NR L fb pixels).isSome := by
  induction pixels generalizing fb with
  | nil => simp [drawIterStripe]
  | cons px rest ih =>
    obtain ⟨h1, h2, h3, h4⟩ := hpx px (by simp)
    obtain ⟨fb2, hfb2, hsh⟩ :=
      drawPixelStripe_isSome NR L fb px.1.1 px.1.2 px.2.1 px.2.2.1 px.2.2.2
        hshape hdiv hNR2 hL hNR h1 h2 h3 h4
    unfold drawIterStripe
    rw [hfb2]
    exact ih fb2 hsh fun p hp => hpx p (by simp [hp])

/-! ### Bulk clear lemmas -/

theorem clear_inner (rows L : Nat) (cellv : Cell) (i : Nat) (hi : i < rows) :
    ∀ (n : Nat) (d : Frame), n ≤ L → Shape d rows L →
      Shape ((List.range n).foldl (fun d2 column => setCellUnchecked d2 i column cellv) d) rows L ∧
      (∀ j, j < n →
        getCell ((List.range n).foldl (fun d2 column => setCellUnchecked d2 i column cellv) d) i j
          = cellv) ∧
      (∀ i2 j2, i2 ≠ i ∨ n ≤ j2 →
        getCell ((List.range n).foldl (fun d2 column => setCellUnchecked d2 i column cellv) d) i2 j2
          = getCell d i2 j2) := by
  intro n
  induction n with
  | zero => intro d _ hshape; exact ⟨hshape, fun j hj => absurd hj (by omega), fun _ _ _ => rfl⟩
  | succ n ih =>
    intro d hn hshape
    obtain ⟨hsh, hset, hkeep⟩ := ih d (by omega) hshape
    rw [List.range_succ, List.foldl_append, List.foldl_cons, List.foldl_nil]
    set dmid := (List.range n).foldl (fun d2 column => setCellUnchecked d2 i column cellv) d with hd
    have hshapeS : Shape (setCellUnchecked dmid i n cellv) rows L := by
      obtain ⟨h1, h2⟩ := @set_shape dmid i n cellv
      exact ⟨by rw [setCellUnchecked, h1, hsh.1], fun k hk => by rw [setCellUnchecked, h2 k, hsh.2 k hk]⟩
    refine ⟨hshapeS, ?_, ?_⟩
    · intro j hj
      rcases Nat.lt_or_ge j n with hjn | hjn
      · rw [setCellUnchecked, getCell_set_ne (by omega)]
        exact hset j hjn
      · have hjeq : j = n := by omega
        subst hjeq
        rw [setCellUnchecked, getCell_set_self (by rw [hsh.1]; omega)
          (by rw [hsh.2 i hi]; omega)]
    · intro i2 j2 hne
      rw [setCellUnchecked, getCell_set_ne (by omega)]
      exact hkeep i2 j2 (by omega)

theorem clear_outer (rows L : Nat) (cellv : Cell) :
    ∀ (nR : Nat) (d : Frame), nR ≤ rows → Shape d rows L →
      Shape ((List.range nR).foldl
        (fun d2 row => (List.range L).foldl
          (fun d3 column => setCellUnchecked d3 row column cellv) d2) d) rows L ∧
      (∀ i j, i < nR → j < L →
        getCell ((List.range nR).foldl
          (fun d2 row => (List.range L).foldl
            (fun d3 column => setCellUnchecked d3 row column cellv) d2) d) i j = cellv) := by
  intro nR
  induction nR with
  | zero => intro d _ hshape; exact ⟨hshape, fun i j hi _ => absurd hi (by omega)⟩
  | succ nR ih =>
    intro d hn hshape
    obtain ⟨hsh, hset⟩ := ih d (by omega) hshape
    rw [List.range_succ, List.foldl_append, List.foldl_cons, List.foldl_nil]
    obtain ⟨hshF, hsetF, hkeepF⟩ :=
      clear_inner rows L cellv nR (by omega) L _ (le_refl L) hsh
    refine ⟨hshF, ?_⟩
    intro i j hi hj
    rcases Nat.lt_or_ge i nR with hin | hin
    · rw [hkeepF i j (by omega)]
      exact hset i j hin hj
    · have : i = nR := by omega
      subst this
      exact hsetF j hj

/-- C9: after `clear(color)` every cell of the framebuffer holds the six duty
values `(GAMMA8[r], GAMMA8[g], GAMMA8[b])` twice, i.e. the gamma-corrected
triple in both the top and the bottom half-slot, whatever the prior
framebuffer contents were. -/
theorem clear_fills_gamma_everywhere (rows L r g b : Nat) (fb : Frame)
    (hshape : Shape fb rows L) :
    ∀ i j, i < rows → j < L →
      getCell (clearColor rows L r g b fb) i j =
        ⟨gamma r, gamma g, gamma b, gamma r, gamma g, gamma b⟩ := by
  intro i j hi hj
  have h := (clear_outer rows L (clearCell r g b) rows fb (le_refl rows) hshape).2 i j hi hj
  unfold clearColor
  exact h

theorem clear_fills_gamma_everywhere_witness :
    getCell (clearColor 2 3 9 130 255 (mkFrame 2 3)) 1 2 =
      ⟨gamma 9, gamma 130, gamma 255, gamma 9, gamma 130, gamma 255⟩ :=
  clear_fills_gamma_everywhere 2 3 9 130 255 (mkFrame 2 3) (by decide) 1 2
    (by decide) (by decide)

/-! ### Pixel-write claims -/

/-- C1: for every color and every in-bounds coordinate, `write_pixel`
(`draw_pixel`) succeeds and the half-slot it selects in the mapped cell holds
exactly `(GAMMA8[r], GAMMA8[g], GAMMA8[b])` afterwards; for every coordinate
outside the configured bounds it succeeds and leaves the framebuffer
unchanged.  Both the non-multiplexed and the stripe-multiplexing variant are
covered. -/
theorem write_pixel_gamma_roundtrip :
    (∀ (NR L : Nat) (fb : Frame) (x y : Int) (r g b : Nat),
      Shape fb NR L → L < 2 ^ 31 → NR * 2 < 2 ^ 31 →
      0 ≤ x → x.toNat < L → 0 ≤ y → y.toNat < NR * 2 →
      ∃ fb2, drawPixelNM NR L fb x y r g b = some fb2 ∧
        ((15 < y →
            (getCell fb2 (y.toNat % NR) x.toNat).e3 = gamma r ∧
            (getCell fb2 (y.toNat % NR) x.toNat).e4 = gamma g ∧
            (getCell fb2 (y.toNat % NR) x.toNat).e5 = gamma b) ∧
         (y ≤ 15 →
            (getCell fb2 (y.toNat % NR) x.toNat).e0 = gamma r ∧
            (getCell fb2 (y.toNat % NR) x.toNat).e1 = gamma g ∧
            (getCell fb2 (y.toNat % NR) x.toNat).e2 = gamma b))) ∧
    (∀ (NR L : Nat) (fb : Frame) (x y : Int) (r g b : Nat),
      L < 2 ^ 31 → NR * 2 < 2 ^ 31 →
      (x < 0 ∨ (L : Int) ≤ x ∨ y < 0 ∨ ((NR * 2 : Nat) : Int) ≤ y) →
      drawPixelNM NR L fb x y r g b = some fb) ∧
    (∀ (NR L : Nat) (fb : Frame) (cx cy : Int) (r g b : Nat),
      Shape fb (NR / 2) L → 64 ∣ L → 2 ≤ NR → L < 2 ^ 31 → NR * 2 < 2 ^ 31 →
      0 ≤ cx → cx.toNat < L / 2 → 0 ≤ cy → cy.toNat < NR * 2 →
      ∃ fb2, drawPixelStripe NR L fb cx cy r g b = some fb2 ∧
        ((15 < cy.toNat →
            (getCell fb2 (cy.toNat % (NR / 2))
              (cx.toNat + cx.toNat / 32 * 32 +
                (if cy.toNat % NR < NR / 2 then 32 else 0))).e3 = gamma r ∧
            (getCell fb2 (cy.toNat % (NR / 2))
              (cx.toNat + cx.toNat / 32 * 32 +
                (if cy.toNat % NR < NR / 2 then 32 else 0))).e4 = gamma g ∧
            (getCell fb2 (cy.toNat % (NR / 2))
              (cx.toNat + cx.toNat / 32 * 32 +
                (if cy.toNat % NR < NR / 2 then 32 else 0))).e5 = gamma b) ∧
         (cy.toNat ≤ 15 →
            (getCell fb2 (cy.toNat % (NR / 2))
              (cx.toNat + cx.toNat / 32 * 32 +
                (if cy.toNat % NR < NR / 2 then 32 else 0))).e0 = gamma r ∧
            (getCell fb2 (cy.toNat % (NR / 2))
              (cx.toNat + cx.toNat / 32 * 32 +
                (if cy.toNat % NR < NR / 2 then 32 else 0))).e1 = gamma g ∧
            (getCell fb2 (cy.toNat % (NR / 2))
              (cx.toNat + cx.toNat / 32 * 32 +
                (if cy.toNat % NR < NR / 2 then 32 else 0))).e2 = gamma b))) ∧
    (∀ (NR L : Nat) (fb : Frame) (cx cy : Int) (r g b : Nat),
      L < 2 ^ 31 → NR * 2 < 2 ^ 31 →
      -2 ^ 31 ≤ cx → cx < 2 ^ 31 → -2 ^ 31 ≤ cy → cy < 2 ^ 31 →
      ¬ (0 ≤ cx ∧ cx.toNat < L / 2 ∧ 0 ≤ cy ∧ cy.toNat < NR * 2) →
      drawPixelStripe NR L fb cx cy r g b = some fb) := by
  refine ⟨?_, ?_, ?_, ?_⟩
  · intro NR L fb x y r g b hshape hL hNR hx0 hx hy0 hy
    obtain ⟨fb2, hfb2, hcell, _, _⟩ :=
      drawPixelNM_inb NR L fb x y r g b hshape hL hNR hx0 hx hy0 hy
    refine ⟨fb2, hfb2, ?_, ?_⟩
    · intro h15
      rw [hcell, if_pos h15]
      exact ⟨rfl, rfl, rfl⟩
    · intro h15
      rw [hcell, if_neg (by omega)]
      exact ⟨rfl, rfl, rfl⟩
  · intro NR L fb x y r g b hL hNR hoob
    exact drawPixelNM_oob NR L fb x y r g b hL hNR hoob
  · intro NR L fb cx cy r g b hshape hdiv hNR2 hL hNR hx0 hx hy0 hy
    obtain ⟨fb2, hfb2, ⟨hcell, _⟩, _⟩ :=
      drawPixelStripe_inb NR L fb cx cy r g b hshape hdiv hNR2 hL hNR hx0 hx hy0 hy
    refine ⟨fb2, hfb2, ?_, ?_⟩
    · intro h15
      rw [hcell, if_pos h15]
      exact ⟨rfl, rfl, rfl⟩
    · intro h15
      rw [hcell, if_neg (by omega)]
      exact ⟨rfl, rfl, rfl⟩
  · intro NR L fb cx cy r g b hL hNR h1 h2 h3 h4 hoob
    exact drawPixelStripe_oob NR L fb cx cy r g b hL hNR h1 h2 h3 h4 hoob

theorem write_pixel_gamma_roundtrip_witness :
    (∃ fb2, drawPixelNM 16 8 (mkFrame 16 8) 3 20 250 128 7 = some fb2 ∧
      ((15 < (20 : Int) →
          (getCell fb2 ((20 : Int).toNat % 16) (3 : Int).toNat).e3 = gamma 250 ∧
          (getCell fb2 ((20 : Int).toNat % 16) (3 : Int).toNat).e4 = gamma 128 ∧
          (getCell fb2 ((20 : Int).toNat % 16) (3 : Int).toNat).e5 = gamma 7) ∧
       ((20 : Int) ≤ 15 →
          (getCell fb2 ((20 : Int).toNat % 16) (3 : Int).toNat).e0 = gamma 250 ∧
          (getCell fb2 ((20 : Int).toNat % 16) (3 : Int).toNat).e1 = gamma 128 ∧
          (getCell fb2 ((20 : Int).toNat % 16) (3 : Int).toNat).e2 = gamma 7))) ∧
    drawPixelNM 16 8 (mkFrame 16 8) (-1) 2 9 9 9 = some (mkFrame 16 8) ∧
    (∃ fb2, drawPixelStripe 16 128 (mkFrame 8 128) 40 5 250 128 7 = some fb2 ∧
      ((15 < (5 : Int).toNat →
          (getCell fb2 ((5 : Int).toNat % (16 / 2))
            ((40 : Int).toNat + (40 : Int).toNat / 32 * 32 +
              (if (5 : Int).toNat % 16 < 16 / 2 then 32 else 0))).e3 = gamma 250 ∧
          (getCell fb2 ((5 : Int).toNat % (16 / 2))
            ((40 : Int).toNat + (40 : Int).toNat / 32 * 32 +
              (if (5 : Int).toNat % 16 < 16 / 2 then 32 else 0))).e4 = gamma 128 ∧
          (getCell fb2 ((5 : Int).toNat % (16 / 2))
            ((40 : Int).toNat + (40 : Int).toNat / 32 * 32 +
              (if (5 : Int).toNat % 16 < 16 / 2 then 32 else 0))).e5 = gamma 7) ∧
       ((5 : Int).toNat ≤ 15 →
          (getCell fb2 ((5 : Int).toNat % (16 / 2))
            ((40 : Int).toNat + (40 : Int).toNat / 32 * 32 +
              (if (5 : Int).toNat % 16 < 16 / 2 then 32 else 0))).e0 = gamma 250 ∧
          (getCell fb2 ((5 : Int).toNat % (16 / 2))
            ((40 : Int).toNat + (40 : Int).toNat / 32 * 32 +
              (if (5 : Int).toNat % 16 < 16 / 2 then 32 else 0))).e1 = gamma 128 ∧
          (getCell fb2 ((5 : Int).toNat % (16 / 2))
            ((40 : Int).toNat + (40 : Int).toNat / 32 * 32 +
              (if (5 : Int).toNat % 16 < 16 / 2 then 32 else 0))).e2 = gamma 7))) ∧
    drawPixelStripe 16 128 (mkFrame 8 128) 70 2 9 9 9 = some (mkFrame 8 128) :=
  ⟨write_pixel_gamma_roundtrip.1 16 8 (mkFrame 16 8) 3 20 250 128 7 (by decide)
      (by norm_num) (by norm_num) (by decide) (by decide) (by decide) (by decide),
   write_pixel_gamma_roundtrip.2.1 16 8 (mkFrame 16 8) (-1) 2 9 9 9
      (by norm_num) (by norm_num) (by norm_num),
   write_pixel_gamma_roundtrip.2.2.1 16 128 (mkFrame 8 128) 40 5 250 128 7 (by decide)
      (by norm_num) (by norm_num) (by norm_num) (by norm_num)
      (by decide) (by decide) (by decide) (by decide),
   write_pixel_gamma_roundtrip.2.2.2 16 128 (mkFrame 8 128) 70 2 9 9 9
      (by norm_num) (by norm_num) (by norm_num) (by norm_num) (by norm_num) (by norm_num)
      (by decide)⟩

/-- C3 (evaluation at the failing input): in the `size-64x64` build
(`NUM_ROWS = 32`, i.e. `scan_rows = 32`), writing at `y = 20 < scan_rows`
stores into the bottom half-slot (fields `.3/.4/.5`) because the source
hard-codes `row > 15` for the half split, leaving the top half-slot zero —
while the claim (and spec) place `y < scan_rows` in the top half. -/
theorem half_select_64x64_bug_eval :
    (drawPixelNM 32 4 (mkFrame 32 4) 0 20 255 255 255).map (fun fb2 => getCell fb2 20 0) =
      some ⟨0, 0, 0, 255, 255, 255⟩ ∧ (20 : Nat) < 32 := by decide

/-- C4: the stripe-multiplexing `write_pixel` stores to buffer-row
`y mod (scan_rows/2)` and buffer-column
`x + 32*(x div 32) + (32 if (y mod scan_rows) < scan_rows/2 else 0)`,
leaving every other cell unchanged; the written half-slot is the top fields
for `y ≤ 15` and the bottom fields otherwise. -/
theorem stripe_mapping (NR L : Nat) (fb : Frame) (cx cy : Int) (r g b : Nat)
    (hshape : Shape fb (NR / 2) L) (hdiv : 64 ∣ L) (hNR2 : 2 ≤ NR)
    (hL : L < 2 ^ 31) (hNR : NR * 2 < 2 ^ 31)
    (hx0 : 0 ≤ cx) (hx : cx.toNat < L / 2) (hy0 : 0 ≤ cy) (hy : cy.toNat < NR * 2) :
    ∃ fb2, drawPixelStripe NR L fb cx cy r g b = some fb2 ∧
      getCell fb2 (cy.toNat % (NR / 2))
          (cx.toNat + 32 * (cx.toNat / 32) + (if cy.toNat % NR < NR / 2 then 32 else 0)) =
        (if 15 < cy.toNat
         then putBottom r g b (getCell fb (cy.toNat % (NR / 2))
           (cx.toNat + 32 * (cx.toNat / 32) + (if cy.toNat % NR < NR / 2 then 32 else 0)))
         else putTop r g b (getCell fb (cy.toNat % (NR / 2))
           (cx.toNat + 32 * (cx.toNat / 32) + (if cy.toNat % NR < NR / 2 then 32 else 0)))) ∧
      ∀ i2 j2, i2 ≠ cy.toNat % (NR / 2) ∨
          j2 ≠ cx.toNat + 32 * (cx.toNat / 32) + (if cy.toNat % NR < NR / 2 then 32 else 0) →
        getCell fb2 i2 j2 = getCell fb i2 j2 := by
  obtain ⟨fb2, hfb2, ⟨hcell, hkeep⟩, _⟩ :=
    drawPixelStripe_inb NR L fb cx cy r g b hshape hdiv hNR2 hL hNR hx0 hx hy0 hy
  rw [Nat.mul_comm 32 (cx.toNat / 32)]
  exact ⟨fb2, hfb2, hcell, hkeep⟩

theorem stripe_mapping_witness :
    ∃ fb2, drawPixelStripe 16 128 (mkFrame 8 128) 40 5 250 128 7 = some fb2 ∧
      getCell fb2 5 104 =
        (if 15 < (5 : Int).toNat
         then putBottom 250 128 7 (getCell (mkFrame 8 128) 5 104)
         else putTop 250 128 7 (getCell (mkFrame 8 128) 5 104)) ∧
      ∀ i2 j2, i2 ≠ 5 ∨ j2 ≠ 104 →
        getCell fb2 i2 j2 = getCell (mkFrame 8 128) i2 j2 :=
  stripe_mapping 16 128 (mkFrame 8 128) 40 5 250 128 7 (by decide) (by norm_num)
    (by norm_num) (by norm_num) (by norm_num) (by decide) (by decide) (by decide) (by decide)

/-- C10: `draw_pixel` is total at the public interface: its Rust error type is
uninhabited (`core::convert::Infallible`), so it can only return `Ok(())`,
and for every `i32` coordinate pair — negative and beyond-bounds values
included — every framebuffer index it performs is in bounds (for the stripe
variant this relies on the panel width being a whole number of 64-column
stripe pairs, as in every supported configuration).  Hence `draw_iter`'s
per-pixel `unwrap` can never panic.  In the embedding a panicking index is
`none`, so totality is `isSome`. -/
theorem draw_pixel_total :
    (∀ (NR L : Nat) (fb : Frame) (x y : Int) (r g b : Nat),
      Shape fb NR L → L < 2 ^ 31 → NR * 2 < 2 ^ 31 →
      (drawPixelNM NR L fb x y r g b).isSome) ∧
    (∀ (NR L : Nat) (fb : Frame) (pixels : List ((Int × Int) × Nat × Nat × Nat)),
      Shape fb NR L → L < 2 ^ 31 → NR * 2 < 2 ^ 31 →
      (drawIterNM NR L fb pixels).isSome) ∧
    (∀ (NR L : Nat) (fb : Frame) (cx cy : Int) (r g b : Nat),
      Shape fb (NR / 2) L → 64 ∣ L → 2 ≤ NR → L < 2 ^ 31 → NR * 2 < 2 ^ 31 →
      -2 ^ 31 ≤ cx → cx < 2 ^ 31 → -2 ^ 31 ≤ cy → cy < 2 ^ 31 →
      (drawPixelStripe NR L fb cx cy r g b).isSome) ∧
    (∀ (NR L : Nat) (fb : Frame) (pixels : List ((Int × Int) × Nat × Nat × Nat)),
      Shape fb (NR / 2) L → 64 ∣ L → 2 ≤ NR → L < 2 ^ 31 → NR * 2 < 2 ^ 31 →
      (∀ p ∈ pixels, -2 ^ 31 ≤ p.1.1 ∧ p.1.1 < 2 ^ 31 ∧ -2 ^ 31 ≤ p.1.2 ∧ p.1.2 < 2 ^ 31) →
      (drawIterStripe NR L fb pixels).isSome) := by
  refine ⟨?_, ?_, ?_, ?_⟩
  · intro NR L fb x y r g b hshape hL hNR
    obtain ⟨fb2, hfb2, _⟩ := drawPixelNM_isSome NR L fb x y r g b hshape hL hNR
    rw [hfb2]
    rfl
  · intro NR L fb pixels hshape hL hNR
    exact drawIterNM_isSome NR L fb pixels hshape hL hNR
  · intro NR L fb cx cy r g b hshape hdiv hNR2 hL hNR h1 h2 h3 h4
    obtain ⟨fb2, hfb2, _⟩ :=
      drawPixelStripe_isSome NR L fb cx cy r g b hshape hdiv hNR2 hL hNR h1 h2 h3 h4
    rw [hfb2]
    rfl
  · intro NR L fb pixels hshape hdiv hNR2 hL hNR hpx
    exact drawIterStripe_isSome NR L fb pixels hshape hdiv hNR2 hL hNR hpx

theorem draw_pixel_total_witness :
    (drawPixelNM 16 8 (mkFrame 16 8) (-7) 100 1 2 3).isSome ∧
    (drawIterNM 16 8 (mkFrame 16 8) [((2, 2), 5, 6, 7), ((-3, 40), 1, 1, 1)]).isSome ∧
    (drawPixelStripe 16 64 (mkFrame 8 64) (-7) 100 1 2 3).isSome ∧
    (drawIterStripe 16 64 (mkFrame 8 64) [((2, 2), 5, 6, 7), ((-3, 40), 1, 1, 1)]).isSome :=
  ⟨draw_pixel_total.1 16 8 (mkFrame 16 8) (-7) 100 1 2 3 (by decide) (by norm_num) (by norm_num),
   draw_pixel_total.2.1 16 8 (mkFrame 16 8) _ (by decide) (by norm_num) (by norm_num),
   draw_pixel_total.2.2.1 16 64 (mkFrame 8 64) (-7) 100 1 2 3 (by decide) (by norm_num)
     (by norm_num) (by norm_num) (by norm_num) (by norm_num) (by norm_num) (by norm_num)
     (by norm_num),
   draw_pixel_total.2.2.2 16 64 (mkFrame 8 64) _ (by decide) (by norm_num) (by norm_num)
     (by norm_num) (by norm_num) (by decide)⟩

/-! ### Output trace machinery -/

theorem foldl_const {α β : Type} (f : α → β) (l : List α) (init : β) :
    l.foldl (fun _ e => f e) init =
      (match l.getLast? with | none => init | some a => f a) := by
  induction l generalizing init with
  | nil => rfl
  | cons x xs ih =>
    rw [List.foldl_cons, ih (f x)]
    cases xs with
    | nil => rfl
    | cons y ys =>
      rw [List.getLast?_cons_cons]
      cases hg : (y :: ys).getLast? with
      | none => rw [List.getLast?_eq_none_iff] at hg; cases hg
      | some aa => rfl

theorem length_flatten_pairs {α : Type} (f g : α → Nat) (l : List α) :
    ((l.map fun e => [f e, g e]).flatten).length = 2 * l.length := by
  induction l with
  | nil => rfl
  | cons x xs ih =>
    simp only [List.map_cons, List.flatten_cons, List.length_append, List.length_cons,
      List.length_nil, List.length_map, ih]
    omega

theorem flatten_pairs_getD {α : Type} (f g : α → Nat) (l : List α) (j : Nat)
    (hj : j < l.length) (dA : α) (d : Nat) :
    ((l.map fun e => [f e, g e]).flatten).getD (2 * j) d = f (l.getD j dA) := by
  induction l generalizing j with
  | nil => simp at hj
  | cons x xs ih =>
    cases j with
    | zero => rfl
    | succ j =>
      have h2 : 2 * (j + 1) = 2 * j + 1 + 1 := by omega
      simp only [List.map_cons, List.flatten_cons, List.cons_append, h2,
        List.getD_cons_succ, List.getD_cons_zero, List.nil_append]
      exact ih j (by simpa using hj)

theorem getD_pairs_append {α : Type} (f g : α → Nat) (l : List α) (T : List Nat)
    (i d : Nat) :
    (((l.map fun e => [f e, g e]).flatten ++ T)).getD (2 * l.length + i) d = T.getD i d := by
  have hlen : ((l.map fun e => [f e, g e]).flatten).length = 2 * l.length :=
    length_flatten_pairs f g l
  rw [List.getD_eq_getElem?_getD, List.getElem?_append_right (by omega), hlen,
    Nat.add_sub_cancel_left, ← List.getD_eq_getElem?_getD]

theorem getD_pairs_elem {α : Type} (f g : α → Nat) (l : List α) (T : List Nat)
    (j d : Nat) (dA : α) (hj : j < l.length) :
    (((l.map fun e => [f e, g e]).flatten ++ T)).getD (2 * j) d = f (l.getD j dA) := by
  have hlen : ((l.map fun e => [f e, g e]).flatten).length = 2 * l.length :=
    length_flatten_pairs f g l
  rw [List.getD_eq_getElem?_getD, List.getElem?_append_left (by omega),
    ← List.getD_eq_getElem?_getD, flatten_pairs_getD f g l j hj dA d]

theorem getD_map {α β : Type} (f : α → β) (l : List α) (i : Nat) (d : β) (dA : α)
    (hi : i < l.length) :
    (l.map f).getD i d = f (l.getD i dA) := by
  rw [List.getD_eq_getElem?_getD, List.getElem?_map, List.getD_eq_getElem?_getD,
    List.getElem?_eq_getElem hi]
  rfl

theorem testBit_add_pinWord (w : Nat) (l : List (Bool × Nat))
    (hnd : (l.map Prod.snd).Nodup) (hw : ∀ e ∈ l, w.testBit e.2 = false) (q : Nat) :
    (w + pinWord l).testBit q = (w.testBit q || l.any fun e => e.1 && decide (e.2 = q)) := by
  induction l generalizing q with
  | nil => simp [pinWord]
  | cons e l ih =>
    simp only [List.map_cons, List.nodup_cons] at hnd
    obtain ⟨hmem, hnd2⟩ := hnd
    have hwrest : ∀ e2 ∈ l, w.testBit e2.2 = false := fun e2 he2 => hw e2 (by simp [he2])
    cases he : e.1 with
    | true =>
      have hbase : (w + pinWord l).testBit e.2 = false := by
        rw [ih hnd2 hwrest e.2, hw e (by simp)]
        simp only [List.any_eq_false, Bool.false_or]
        intro x hx
        simp only [Bool.and_eq_true, decide_eq_true_eq, not_and]
        intro _ hxq
        exact hmem (hxq ▸ List.mem_map_of_mem Prod.snd hx)
      have harr : w + pinWord (e :: l) = 2 ^ e.2 + (w + pinWord l) := by
        simp only [pinWord, he, if_true]
        omega
      rw [harr, testBit_two_pow_add _ _ _ hbase, ih hnd2 hwrest q]
      have hqe : decide (q = e.2) = decide (e.2 = q) := by simp [eq_comm]
      simp only [List.any_cons]
      rw [hqe, he]
      cases w.testBit q <;> cases (l.any fun e => e.1 && decide (e.2 = q)) <;>
        cases hde : decide (e.2 = q) <;> simp
    | false =>
      simp only [pinWord, he, Bool.false_eq_true, if_false, Nat.zero_add]
      rw [ih hnd2 hwrest q]
      simp [he]

theorem and_pow_testBit (count i : Nat) :
    decide (count &&& 2 ^ i ≠ 0) = count.testBit i := by
  rw [Nat.and_two_pow]
  cases h : count.testBit i <;> simp [h, (Nat.two_pow_pos i).ne']

theorem pins_distinct {P : Pins} (hP : P.valid) :
    P.r1 ≠ P.g1 ∧
    P.r1 ≠ P.b1 ∧
    P.r1 ≠ P.r2 ∧
    P.r1 ≠ P.g2 ∧
    P.r1 ≠ P.b2 ∧
    P.r1 ≠ P.a ∧
    P.r1 ≠ P.b ∧
    P.r1 ≠ P.c ∧
    P.r1 ≠ P.clock ∧
    P.r1 ≠ P.latch ∧
    P.r1 ≠ P.oe ∧
    P.g1 ≠ P.b1 ∧
    P.g1 ≠ P.r2 ∧
    P.g1 ≠ P.g2 ∧
    P.g1 ≠ P.b2 ∧
    P.g1 ≠ P.a ∧
    P.g1 ≠ P.b ∧
    P.g1 ≠ P.c ∧
    P.g1 ≠ P.clock ∧
    P.g1 ≠ P.latch ∧
    P.g1 ≠ P.oe ∧
    P.b1 ≠ P.r2 ∧
    P.b1 ≠ P.g2 ∧
    P.b1 ≠ P.b2 ∧
    P.b1 ≠ P.a ∧
    P.b1 ≠ P.b ∧
    P.b1 ≠ P.c ∧
    P.b1 ≠ P.clock ∧
    P.b1 ≠ P.latch ∧
    P.b1 ≠ P.oe ∧
    P.r2 ≠ P.g2 ∧
    P.r2 ≠ P.b2 ∧
    P.r2 ≠ P.a ∧
    P.r2 ≠ P.b ∧
    P.r2 ≠ P.c ∧
    P.r2 ≠ P.clock ∧
    P.r2 ≠ P.latch ∧
    P.r2 ≠ P.oe ∧
    P.g2 ≠ P.b2 ∧
    P.g2 ≠ P.a ∧
    P.g2 ≠ P.b ∧
    P.g2 ≠ P.c ∧
    P.g2 ≠ P.clock ∧
    P.g2 ≠ P.latch ∧
    P.g2 ≠ P.oe ∧
    P.b2 ≠ P.a ∧
    P.b2 ≠ P.b ∧
    P.b2 ≠ P.c ∧
    P.b2 ≠ P.clock ∧
    P.b2 ≠ P.latch ∧
    P.b2 ≠ P.oe ∧
    P.a ≠ P.b ∧
    P.a ≠ P.c ∧
    P.a ≠ P.clock ∧
    P.a ≠ P.latch ∧
    P.a ≠ P.oe ∧
    P.b ≠ P.c ∧
    P.b ≠ P.clock ∧
    P.b ≠ P.latch ∧
    P.b ≠ P.oe ∧
    P.c ≠ P.clock ∧
    P.c ≠ P.latch ∧
    P.c ≠ P.oe ∧
    P.clock ≠ P.latch ∧
    P.clock ≠ P.oe ∧
    P.latch ≠ P.oe := by
  have hd := hP.1
  simp only [Pins.list, List.nodup_cons, List.mem_cons, List.mem_singleton,
    List.not_mem_nil, or_false, not_or, not_false_eq_true, List.nodup_nil, and_true] at hd
  obtain ⟨⟨h0_1, h0_2, h0_3, h0_4, h0_5, h0_6, h0_7, h0_8, h0_9, h0_10, h0_11⟩, ⟨h1_2, h1_3, h1_4, h1_5, h1_6, h1_7, h1_8, h1_9, h1_10, h1_11⟩, ⟨h2_3, h2_4, h2_5, h2_6, h2_7, h2_8, h2_9, h2_10, h2_11⟩, ⟨h3_4, h3_5, h3_6, h3_7, h3_8, h3_9, h3_10, h3_11⟩, ⟨h4_5, h4_6, h4_7, h4_8, h4_9, h4_10, h4_11⟩, ⟨h5_6, h5_7, h5_8, h5_9, h5_10, h5_11⟩, ⟨h6_7, h6_8, h6_9, h6_10, h6_11⟩, ⟨h7_8, h7_9, h7_10, h7_11⟩, ⟨h8_9, h8_10, h8_11⟩, ⟨h9_10, h9_11⟩, h10_11⟩ := hd
  exact ⟨h0_1, h0_2, h0_3, h0_4, h0_5, h0_6, h0_7, h0_8, h0_9, h0_10, h0_11, h1_2, h1_3, h1_4, h1_5, h1_6, h1_7, h1_8, h1_9, h1_10, h1_11, h2_3, h2_4, h2_5, h2_6, h2_7, h2_8, h2_9, h2_10, h2_11, h3_4, h3_5, h3_6, h3_7, h3_8, h3_9, h3_10, h3_11, h4_5, h4_6, h4_7, h4_8, h4_9, h4_10, h4_11, h5_6, h5_7, h5_8, h5_9, h5_10, h5_11, h6_7, h6_8, h6_9, h6_10, h6_11, h7_8, h7_9, h7_10, h7_11, h8_9, h8_10, h8_11, h9_10, h9_11, h10_11⟩

theorem pins_lt16 {P : Pins} (hP : P.valid) :
    P.r1 < 16 ∧ P.g1 < 16 ∧ P.b1 < 16 ∧ P.r2 < 16 ∧ P.g2 < 16 ∧ P.b2 < 16 ∧ P.a < 16 ∧ P.b < 16 ∧ P.c < 16 ∧ P.clock < 16 ∧ P.latch < 16 ∧ P.oe < 16 := by
  have hb := hP.2
  simp only [Pins.list, List.mem_cons, List.not_mem_nil, or_false, forall_eq_or_imp,
    forall_eq] at hb
  omega

theorem nodup_pwm_elem (P : Pins) (hP : P.valid) : ([P.latch, P.r1, P.g1, P.b1, P.r2, P.g2, P.b2, P.clock] : List Nat).Nodup := by
  obtain ⟨h0_1, h0_2, h0_3, h0_4, h0_5, h0_6, h0_7, h0_8, h0_9, h0_10, h0_11, h1_2, h1_3, h1_4, h1_5, h1_6, h1_7, h1_8, h1_9, h1_10, h1_11, h2_3, h2_4, h2_5, h2_6, h2_7, h2_8, h2_9, h2_10, h2_11, h3_4, h3_5, h3_6, h3_7, h3_8, h3_9, h3_10, h3_11, h4_5, h4_6, h4_7, h4_8, h4_9, h4_10, h4_11, h5_6, h5_7, h5_8, h5_9, h5_10, h5_11, h6_7, h6_8, h6_9, h6_10, h6_11, h7_8, h7_9, h7_10, h7_11, h8_9, h8_10, h8_11, h9_10, h9_11, h10_11⟩ := pins_distinct hP
  simp only [List.nodup_cons, List.mem_cons, List.mem_singleton, List.not_mem_nil,
    or_false, not_or, not_false_eq_true, List.nodup_nil, and_true]
  exact ⟨⟨(h0_10).symm, (h1_10).symm, (h2_10).symm, (h3_10).symm, (h4_10).symm, (h5_10).symm, (h9_10).symm⟩, ⟨h0_1, h0_2, h0_3, h0_4, h0_5, h0_9⟩, ⟨h1_2, h1_3, h1_4, h1_5, h1_9⟩, ⟨h2_3, h2_4, h2_5, h2_9⟩, ⟨h3_4, h3_5, h3_9⟩, ⟨h4_5, h4_9⟩, h5_9⟩

theorem nodup_pwm_w2 (P : Pins) (hP : P.valid) : ([P.latch, P.oe, P.r1, P.g1, P.b1, P.r2, P.g2, P.b2] : List Nat).Nodup := by
  obtain ⟨h0_1, h0_2, h0_3, h0_4, h0_5, h0_6, h0_7, h0_8, h0_9, h0_10, h0_11, h1_2, h1_3, h1_4, h1_5, h1_6, h1_7, h1_8, h1_9, h1_10, h1_11, h2_3, h2_4, h2_5, h2_6, h2_7, h2_8, h2_9, h2_10, h2_11, h3_4, h3_5, h3_6, h3_7, h3_8, h3_9, h3_10, h3_11, h4_5, h4_6, h4_7, h4_8, h4_9, h4_10, h4_11, h5_6, h5_7, h5_8, h5_9, h5_10, h5_11, h6_7, h6_8, h6_9, h6_10, h6_11, h7_8, h7_9, h7_10, h7_11, h8_9, h8_10, h8_11, h9_10, h9_11, h10_11⟩ := pins_distinct hP
  simp only [List.nodup_cons, List.mem_cons, List.mem_singleton, List.not_mem_nil,
    or_false, not_or, not_false_eq_true, List.nodup_nil, and_true]
  exact ⟨⟨h10_11, (h0_10).symm, (h1_10).symm, (h2_10).symm, (h3_10).symm, (h4_10).symm, (h5_10).symm⟩, ⟨(h0_11).symm, (h1_11).symm, (h2_11).symm, (h3_11).symm, (h4_11).symm, (h5_11).symm⟩, ⟨h0_1, h0_2, h0_3, h0_4, h0_5⟩, ⟨h1_2, h1_3, h1_4, h1_5⟩, ⟨h2_3, h2_4, h2_5⟩, ⟨h3_4, h3_5⟩, h4_5⟩

theorem nodup_pwm_w2e (P : Pins) (hP : P.valid) : ([P.latch, P.oe] : List Nat).Nodup := by
  obtain ⟨h0_1, h0_2, h0_3, h0_4, h0_5, h0_6, h0_7, h0_8, h0_9, h0_10, h0_11, h1_2, h1_3, h1_4, h1_5, h1_6, h1_7, h1_8, h1_9, h1_10, h1_11, h2_3, h2_4, h2_5, h2_6, h2_7, h2_8, h2_9, h2_10, h2_11, h3_4, h3_5, h3_6, h3_7, h3_8, h3_9, h3_10, h3_11, h4_5, h4_6, h4_7, h4_8, h4_9, h4_10, h4_11, h5_6, h5_7, h5_8, h5_9, h5_10, h5_11, h6_7, h6_8, h6_9, h6_10, h6_11, h7_8, h7_9, h7_10, h7_11, h8_9, h8_10, h8_11, h9_10, h9_11, h10_11⟩ := pins_distinct hP
  simp only [List.nodup_cons, List.mem_cons, List.mem_singleton, List.not_mem_nil,
    or_false, not_or, not_false_eq_true, List.nodup_nil, and_true]
  exact h10_11

theorem nodup_abc (P : Pins) (hP : P.valid) : ([P.a, P.b, P.c] : List Nat).Nodup := by
  obtain ⟨h0_1, h0_2, h0_3, h0_4, h0_5, h0_6, h0_7, h0_8, h0_9, h0_10, h0_11, h1_2, h1_3, h1_4, h1_5, h1_6, h1_7, h1_8, h1_9, h1_10, h1_11, h2_3, h2_4, h2_5, h2_6, h2_7, h2_8, h2_9, h2_10, h2_11, h3_4, h3_5, h3_6, h3_7, h3_8, h3_9, h3_10, h3_11, h4_5, h4_6, h4_7, h4_8, h4_9, h4_10, h4_11, h5_6, h5_7, h5_8, h5_9, h5_10, h5_11, h6_7, h6_8, h6_9, h6_10, h6_11, h7_8, h7_9, h7_10, h7_11, h8_9, h8_10, h8_11, h9_10, h9_11, h10_11⟩ := pins_distinct hP
  simp only [List.nodup_cons, List.mem_cons, List.mem_singleton, List.not_mem_nil,
    or_false, not_or, not_false_eq_true, List.nodup_nil, and_true]
  exact ⟨⟨h6_7, h6_8⟩, h7_8⟩

theorem nodup_bcm_oe (P : Pins) (hP : P.valid) : ([P.oe, P.r1, P.g1, P.b1, P.r2, P.g2, P.b2, P.clock] : List Nat).Nodup := by
  obtain ⟨h0_1, h0_2, h0_3, h0_4, h0_5, h0_6, h0_7, h0_8, h0_9, h0_10, h0_11, h1_2, h1_3, h1_4, h1_5, h1_6, h1_7, h1_8, h1_9, h1_10, h1_11, h2_3, h2_4, h2_5, h2_6, h2_7, h2_8, h2_9, h2_10, h2_11, h3_4, h3_5, h3_6, h3_7, h3_8, h3_9, h3_10, h3_11, h4_5, h4_6, h4_7, h4_8, h4_9, h4_10, h4_11, h5_6, h5_7, h5_8, h5_9, h5_10, h5_11, h6_7, h6_8, h6_9, h6_10, h6_11, h7_8, h7_9, h7_10, h7_11, h8_9, h8_10, h8_11, h9_10, h9_11, h10_11⟩ := pins_distinct hP
  simp only [List.nodup_cons, List.mem_cons, List.mem_singleton, List.not_mem_nil,
    or_false, not_or, not_false_eq_true, List.nodup_nil, and_true]
  exact ⟨⟨(h0_11).symm, (h1_11).symm, (h2_11).symm, (h3_11).symm, (h4_11).symm, (h5_11).symm, (h9_11).symm⟩, ⟨h0_1, h0_2, h0_3, h0_4, h0_5, h0_9⟩, ⟨h1_2, h1_3, h1_4, h1_5, h1_9⟩, ⟨h2_3, h2_4, h2_5, h2_9⟩, ⟨h3_4, h3_5, h3_9⟩, ⟨h4_5, h4_9⟩, h5_9⟩

theorem nodup_bcm_abc (P : Pins) (hP : P.valid) : ([P.a, P.b, P.c, P.r1, P.g1, P.b1, P.r2, P.g2, P.b2, P.clock] : List Nat).Nodup := by
  obtain ⟨h0_1, h0_2, h0_3, h0_4, h0_5, h0_6, h0_7, h0_8, h0_9, h0_10, h0_11, h1_2, h1_3, h1_4, h1_5, h1_6, h1_7, h1_8, h1_9, h1_10, h1_11, h2_3, h2_4, h2_5, h2_6, h2_7, h2_8, h2_9, h2_10, h2_11, h3_4, h3_5, h3_6, h3_7, h3_8, h3_9, h3_10, h3_11, h4_5, h4_6, h4_7, h4_8, h4_9, h4_10, h4_11, h5_6, h5_7, h5_8, h5_9, h5_10, h5_11, h6_7, h6_8, h6_9, h6_10, h6_11, h7_8, h7_9, h7_10, h7_11, h8_9, h8_10, h8_11, h9_10, h9_11, h10_11⟩ := pins_distinct hP
  simp only [List.nodup_cons, List.mem_cons, List.mem_singleton, List.not_mem_nil,
    or_false, not_or, not_false_eq_true, List.nodup_nil, and_true]
  exact ⟨⟨h6_7, h6_8, (h0_6).symm, (h1_6).symm, (h2_6).symm, (h3_6).symm, (h4_6).symm, (h5_6).symm, h6_9⟩, ⟨h7_8, (h0_7).symm, (h1_7).symm, (h2_7).symm, (h3_7).symm, (h4_7).symm, (h5_7).symm, h7_9⟩, ⟨(h0_8).symm, (h1_8).symm, (h2_8).symm, (h3_8).symm, (h4_8).symm, (h5_8).symm, h8_9⟩, ⟨h0_1, h0_2, h0_3, h0_4, h0_5, h0_9⟩, ⟨h1_2, h1_3, h1_4, h1_5, h1_9⟩, ⟨h2_3, h2_4, h2_5, h2_9⟩, ⟨h3_4, h3_5, h3_9⟩, ⟨h4_5, h4_9⟩, h5_9⟩

/-! ### Word normal forms -/

theorem addrWord_eq (P : Pins) (count : Nat) :
    addrWord P count = pinWord (addrList P count) := by
  simp only [addrWord, addrList, pinWord, PINS, Nat.one_shiftLeft, decide_eq_true_eq]
  omega

theorem pwmElementWord_eq (P : Pins) (t : Nat) (e : Cell) :
    pwmElementWord P t e =
      pinWord ((true, P.latch) :: pwmColorList P t e ++ [(true, P.clock)]) := by
  simp only [pwmElementWord, pwmColorList, pinWord, PINS, Nat.one_shiftLeft,
    List.cons_append, List.nil_append, decide_eq_true_eq, if_true]
  split_ifs <;> omega

theorem bcmElementWord_eq (P : Pins) (mask address : Nat) (e : Cell) :
    bcmElementWord P mask address e =
      address + pinWord (bcmColorList P mask e ++ [(true, P.clock)]) := by
  simp only [bcmElementWord, bcmColorList, pinWord, PINS, Nat.one_shiftLeft,
    List.cons_append, List.nil_append, decide_eq_true_eq, if_true]
  split_ifs <;> omega

theorem abc_sum_eq (P : Pins) :
    (PINS P).a + (PINS P).b + (PINS P).c =
      pinWord [(true, P.a), (true, P.b), (true, P.c)] := by
  simp only [pinWord, PINS, Nat.one_shiftLeft, if_true]
  omega

theorem oe_pinWord (P : Pins) : (PINS P).oe = pinWord [(true, P.oe)] := by
  simp only [pinWord, PINS, Nat.one_shiftLeft, if_true]
  omega

theorem pwm_w2_eq (P : Pins) (t : Nat) (row : List Cell) :
    row.foldl (fun _ e => pwmElementWord P t e - (PINS P).clock) ((PINS P).latch + 0)
        + (PINS P).oe - (PINS P).latch + (PINS P).latch =
      pinWord ((true, P.latch) :: (true, P.oe) ::
        (match row.getLast? with
         | none => ([] : List (Bool × Nat))
         | some e => pwmColorList P t e)) := by
  rw [foldl_const]
  cases hlast : row.getLast? with
  | none =>
    dsimp only
    simp only [pinWord, PINS, Nat.one_shiftLeft, if_true]
    generalize (2 : Nat) ^ P.latch = lv
    generalize (2 : Nat) ^ P.oe = ov
    omega
  | some e =>
    dsimp only
    rw [pwmElementWord_eq]
    have h1 : pinWord ((true, P.latch) :: pwmColorList P t e ++ [(true, P.clock)]) =
        2 ^ P.latch + pinWord (pwmColorList P t e) + 2 ^ P.clock := by
      simp only [List.cons_append, pinWord, pinWord_append, if_true]
      omega
    have h2 : pinWord ((true, P.latch) :: (true, P.oe) :: pwmColorList P t e) =
        2 ^ P.latch + (2 ^ P.oe + pinWord (pwmColorList P t e)) := by
      simp only [pinWord, if_true]
    rw [h1, h2]
    simp only [PINS, Nat.one_shiftLeft]
    generalize (2 : Nat) ^ P.latch = lv
    generalize (2 : Nat) ^ P.clock = cv
    generalize (2 : Nat) ^ P.oe = ov
    generalize pinWord (pwmColorList P t e) = pv
    omega

/-! ### Bit extraction from the output words -/

theorem pwmElementWord_testBits (P : Pins) (hP : P.valid) (t : Nat) (e : Cell) :
    (pwmElementWord P t e).testBit P.r1 = decide (t ≤ e.e0) ∧
    (pwmElementWord P t e).testBit P.g1 = decide (t ≤ e.e1) ∧
    (pwmElementWord P t e).testBit P.b1 = decide (t ≤ e.e2) ∧
    (pwmElementWord P t e).testBit P.r2 = decide (t ≤ e.e3) ∧
    (pwmElementWord P t e).testBit P.g2 = decide (t ≤ e.e4) ∧
    (pwmElementWord P t e).testBit P.b2 = decide (t ≤ e.e5) := by
  obtain ⟨h0_1, h0_2, h0_3, h0_4, h0_5, h0_6, h0_7, h0_8, h0_9, h0_10, h0_11, h1_2, h1_3, h1_4, h1_5, h1_6, h1_7, h1_8, h1_9, h1_10, h1_11, h2_3, h2_4, h2_5, h2_6, h2_7, h2_8, h2_9, h2_10, h2_11, h3_4, h3_5, h3_6, h3_7, h3_8, h3_9, h3_10, h3_11, h4_5, h4_6, h4_7, h4_8, h4_9, h4_10, h4_11, h5_6, h5_7, h5_8, h5_9, h5_10, h5_11, h6_7, h6_8, h6_9, h6_10, h6_11, h7_8, h7_9, h7_10, h7_11, h8_9, h8_10, h8_11, h9_10, h9_11, h10_11⟩ := pins_distinct hP
  have hnd : ((((true, P.latch) :: pwmColorList P t e ++ [(true, P.clock)]).map Prod.snd)).Nodup := by
    simpa [pwmColorList] using nodup_pwm_elem P hP
  rw [pwmElementWord_eq]
  refine ⟨?_, ?_, ?_, ?_, ?_, ?_⟩ <;>
    rw [testBit_pinWord _ hnd] <;>
    simp [pwmColorList, (h0_10).symm, (h0_9).symm, (h0_1).symm, (h0_2).symm, (h0_3).symm, (h0_4).symm, (h0_5).symm, (h1_10).symm, (h1_9).symm, h0_1, (h1_2).symm, (h1_3).symm, (h1_4).symm, (h1_5).symm, (h2_10).symm, (h2_9).symm, h0_2, h1_2, (h2_3).symm, (h2_4).symm, (h2_5).symm, (h3_10).symm, (h3_9).symm, h0_3, h1_3, h2_3, (h3_4).symm, (h3_5).symm, (h4_10).symm, (h4_9).symm, h0_4, h1_4, h2_4, h3_4, (h4_5).symm, (h5_10).symm, (h5_9).symm, h0_5, h1_5, h2_5, h3_5, h4_5]

theorem bcmElementWord_testBits (P : Pins) (hP : P.valid) (mask address : Nat) (e : Cell)
    (haddr : address = (PINS P).oe ∨ ∃ n, address = addrWord P n) :
    (bcmElementWord P mask address e).testBit P.r1 = decide (e.e0 &&& mask ≠ 0) ∧
    (bcmElementWord P mask address e).testBit P.g1 = decide (e.e1 &&& mask ≠ 0) ∧
    (bcmElementWord P mask address e).testBit P.b1 = decide (e.e2 &&& mask ≠ 0) ∧
    (bcmElementWord P mask address e).testBit P.r2 = decide (e.e3 &&& mask ≠ 0) ∧
    (bcmElementWord P mask address e).testBit P.g2 = decide (e.e4 &&& mask ≠ 0) ∧
    (bcmElementWord P mask address e).testBit P.b2 = decide (e.e5 &&& mask ≠ 0) := by
  obtain ⟨h0_1, h0_2, h0_3, h0_4, h0_5, h0_6, h0_7, h0_8, h0_9, h0_10, h0_11, h1_2, h1_3, h1_4, h1_5, h1_6, h1_7, h1_8, h1_9, h1_10, h1_11, h2_3, h2_4, h2_5, h2_6, h2_7, h2_8, h2_9, h2_10, h2_11, h3_4, h3_5, h3_6, h3_7, h3_8, h3_9, h3_10, h3_11, h4_5, h4_6, h4_7, h4_8, h4_9, h4_10, h4_11, h5_6, h5_7, h5_8, h5_9, h5_10, h5_11, h6_7, h6_8, h6_9, h6_10, h6_11, h7_8, h7_9, h7_10, h7_11, h8_9, h8_10, h8_11, h9_10, h9_11, h10_11⟩ := pins_distinct hP
  rcases haddr with rfl | ⟨n, rfl⟩
  · have heq : bcmElementWord P mask ((PINS P).oe) e =
        pinWord ((true, P.oe) :: (bcmColorList P mask e ++ [(true, P.clock)])) := by
      rw [bcmElementWord_eq, oe_pinWord]
      simp only [pinWord, if_true]
      omega
    have hnd : ((((true, P.oe) :: (bcmColorList P mask e ++ [(true, P.clock)])).map Prod.snd)).Nodup := by
      simpa [bcmColorList] using nodup_bcm_oe P hP
    rw [heq]
    refine ⟨?_, ?_, ?_, ?_, ?_, ?_⟩ <;>
      rw [testBit_pinWord _ hnd] <;>
      simp [bcmColorList, (h0_11).symm, (h0_9).symm, (h0_1).symm, (h0_2).symm, (h0_3).symm, (h0_4).symm, (h0_5).symm, (h1_11).symm, (h1_9).symm, h0_1, (h1_2).symm, (h1_3).symm, (h1_4).symm, (h1_5).symm, (h2_11).symm, (h2_9).symm, h0_2, h1_2, (h2_3).symm, (h2_4).symm, (h2_5).symm, (h3_11).symm, (h3_9).symm, h0_3, h1_3, h2_3, (h3_4).symm, (h3_5).symm, (h4_11).symm, (h4_9).symm, h0_4, h1_4, h2_4, h3_4, (h4_5).symm, (h5_11).symm, (h5_9).symm, h0_5, h1_5, h2_5, h3_5, h4_5]
  · have heq : bcmElementWord P mask (addrWord P n) e =
        pinWord (addrList P n ++ (bcmColorList P mask e ++ [(true, P.clock)])) := by
      rw [bcmElementWord_eq, addrWord_eq]
      simp [pinWord_append]
    have hnd : (((addrList P n ++ (bcmColorList P mask e ++ [(true, P.clock)])).map Prod.snd)).Nodup := by
      simpa [addrList, bcmColorList] using nodup_bcm_abc P hP
    rw [heq]
    refine ⟨?_, ?_, ?_, ?_, ?_, ?_⟩ <;>
      rw [testBit_pinWord _ hnd] <;>
      simp [addrList, bcmColorList, (h0_6).symm, (h0_7).symm, (h0_8).symm, (h0_9).symm, (h0_1).symm, (h0_2).symm, (h0_3).symm, (h0_4).symm, (h0_5).symm, (h1_6).symm, (h1_7).symm, (h1_8).symm, (h1_9).symm, h0_1, (h1_2).symm, (h1_3).symm, (h1_4).symm, (h1_5).symm, (h2_6).symm, (h2_7).symm, (h2_8).symm, (h2_9).symm, h0_2, h1_2, (h2_3).symm, (h2_4).symm, (h2_5).symm, (h3_6).symm, (h3_7).symm, (h3_8).symm, (h3_9).symm, h0_3, h1_3, h2_3, (h3_4).symm, (h3_5).symm, (h4_6).symm, (h4_7).symm, (h4_8).symm, (h4_9).symm, h0_4, h1_4, h2_4, h3_4, (h4_5).symm, (h5_6).symm, (h5_7).symm, (h5_8).symm, (h5_9).symm, h0_5, h1_5, h2_5, h3_5, h4_5]

theorem pwmRow_getD_w3 (P : Pins) (t count : Nat) (row : List Cell) :
    (pwmRow P t count row).getD (2 * row.length + 2) 0 =
      row.foldl (fun _ e => pwmElementWord P t e - (PINS P).clock) ((PINS P).latch + 0)
        + (PINS P).oe - (PINS P).latch + (PINS P).latch + addrWord P count := by
  simp only [pwmRow]
  rw [getD_pairs_append]
  rfl

theorem pwmRow_getD_elem (P : Pins) (t count : Nat) (row : List Cell) (j : Nat)
    (hj : j < row.length) :
    (pwmRow P t count row).getD (2 * j) 0 =
      pwmElementWord P t (row.getD j ⟨0, 0, 0, 0, 0, 0⟩) := by
  simp only [pwmRow]
  exact getD_pairs_elem _ _ row _ j 0 ⟨0, 0, 0, 0, 0, 0⟩ hj

theorem pwmRow_addrBits (P : Pins) (hP : P.valid) (t count : Nat) (row : List Cell) :
    ((pwmRow P t count row).getD (2 * row.length + 2) 0).testBit P.a = count.testBit 0 ∧
    ((pwmRow P t count row).getD (2 * row.length + 2) 0).testBit P.b = count.testBit 1 ∧
    ((pwmRow P t count row).getD (2 * row.length + 2) 0).testBit P.c = count.testBit 2 := by
  obtain ⟨h0_1, h0_2, h0_3, h0_4, h0_5, h0_6, h0_7, h0_8, h0_9, h0_10, h0_11, h1_2, h1_3, h1_4, h1_5, h1_6, h1_7, h1_8, h1_9, h1_10, h1_11, h2_3, h2_4, h2_5, h2_6, h2_7, h2_8, h2_9, h2_10, h2_11, h3_4, h3_5, h3_6, h3_7, h3_8, h3_9, h3_10, h3_11, h4_5, h4_6, h4_7, h4_8, h4_9, h4_10, h4_11, h5_6, h5_7, h5_8, h5_9, h5_10, h5_11, h6_7, h6_8, h6_9, h6_10, h6_11, h7_8, h7_9, h7_10, h7_11, h8_9, h8_10, h8_11, h9_10, h9_11, h10_11⟩ := pins_distinct hP
  have e1 : decide (count &&& 1 ≠ 0) = count.testBit 0 := by
    have h := and_pow_testBit count 0
    rw [show (2 : Nat) ^ 0 = 1 from by norm_num] at h
    exact h
  have e2 : decide (count &&& 2 ≠ 0) = count.testBit 1 := by
    have h := and_pow_testBit count 1
    rw [show (2 : Nat) ^ 1 = 2 from by norm_num] at h
    exact h
  have e4 : decide (count &&& 4 ≠ 0) = count.testBit 2 := by
    have h := and_pow_testBit count 2
    rw [show (2 : Nat) ^ 2 = 4 from by norm_num] at h
    exact h
  have hndaddr : (((addrList P count).map Prod.snd)).Nodup := by
    simpa [addrList] using nodup_abc P hP
  rw [pwmRow_getD_w3, pwm_w2_eq, addrWord_eq]
  rcases hlast : row.getLast? with - | e
  · dsimp only
    have hnd2 : ((((true, P.latch) :: (true, P.oe) :: ([] : List (Bool × Nat))).map Prod.snd)).Nodup := by
      simpa using nodup_pwm_w2e P hP
    have hfalse : ∀ e2x ∈ addrList P count,
        (pinWord ((true, P.latch) :: (true, P.oe) :: ([] : List (Bool × Nat)))).testBit e2x.2 = false := by
      intro e2x he2x
      rw [testBit_pinWord _ hnd2]
      simp only [addrList, List.mem_cons, List.not_mem_nil, or_false] at he2x
      rcases he2x with rfl | rfl | rfl <;> simp [(h6_10).symm, (h6_11).symm, h0_6, h1_6, h2_6, h3_6, h4_6, h5_6, (h6_7).symm, (h6_8).symm, (h7_10).symm, (h7_11).symm, h0_7, h1_7, h2_7, h3_7, h4_7, h5_7, h6_7, (h7_8).symm, (h8_10).symm, (h8_11).symm, h0_8, h1_8, h2_8, h3_8, h4_8, h5_8, h6_8, h7_8]
    refine ⟨?_, ?_, ?_⟩ <;>
      rw [testBit_add_pinWord _ _ hndaddr hfalse, testBit_pinWord _ hnd2] <;>
      simp [addrList, e1, e2, e4, (h6_10).symm, (h6_11).symm, h0_6, h1_6, h2_6, h3_6, h4_6, h5_6, (h6_7).symm, (h6_8).symm, (h7_10).symm, (h7_11).symm, h0_7, h1_7, h2_7, h3_7, h4_7, h5_7, h6_7, (h7_8).symm, (h8_10).symm, (h8_11).symm, h0_8, h1_8, h2_8, h3_8, h4_8, h5_8, h6_8, h7_8]
  · dsimp only
    have hnd2 : ((((true, P.latch) :: (true, P.oe) :: pwmColorList P t e).map Prod.snd)).Nodup := by
      simpa [pwmColorList] using nodup_pwm_w2 P hP
    have hfalse : ∀ e2x ∈ addrList P count,
        (pinWord ((true, P.latch) :: (true, P.oe) :: pwmColorList P t e)).testBit e2x.2 = false := by
      intro e2x he2x
      rw [testBit_pinWord _ hnd2]
      simp only [addrList, List.mem_cons, List.not_mem_nil, or_false] at he2x
      rcases he2x with rfl | rfl | rfl <;> simp [pwmColorList, (h6_10).symm, (h6_11).symm, h0_6, h1_6, h2_6, h3_6, h4_6, h5_6, (h6_7).symm, (h6_8).symm, (h7_10).symm, (h7_11).symm, h0_7, h1_7, h2_7, h3_7, h4_7, h5_7, h6_7, (h7_8).symm, (h8_10).symm, (h8_11).symm, h0_8, h1_8, h2_8, h3_8, h4_8, h5_8, h6_8, h7_8]
    refine ⟨?_, ?_, ?_⟩ <;>
      rw [testBit_add_pinWord _ _ hndaddr hfalse, testBit_pinWord _ hnd2] <;>
      simp [addrList, pwmColorList, e1, e2, e4, (h6_10).symm, (h6_11).symm, h0_6, h1_6, h2_6, h3_6, h4_6, h5_6, (h6_7).symm, (h6_8).symm, (h7_10).symm, (h7_11).symm, h0_7, h1_7, h2_7, h3_7, h4_7, h5_7, h6_7, (h7_8).symm, (h8_10).symm, (h8_11).symm, h0_8, h1_8, h2_8, h3_8, h4_8, h5_8, h6_8, h7_8]

theorem bcm_ob3_addrBits (P : Pins) (hP : P.valid) (X count : Nat) :
    (((X &&& bnot16 ((PINS P).a + (PINS P).b + (PINS P).c)) + addrWord P count).testBit P.a
        = count.testBit 0) ∧
    (((X &&& bnot16 ((PINS P).a + (PINS P).b + (PINS P).c)) + addrWord P count).testBit P.b
        = count.testBit 1) ∧
    (((X &&& bnot16 ((PINS P).a + (PINS P).b + (PINS P).c)) + addrWord P count).testBit P.c
        = count.testBit 2) := by
  obtain ⟨h0_1, h0_2, h0_3, h0_4, h0_5, h0_6, h0_7, h0_8, h0_9, h0_10, h0_11, h1_2, h1_3, h1_4, h1_5, h1_6, h1_7, h1_8, h1_9, h1_10, h1_11, h2_3, h2_4, h2_5, h2_6, h2_7, h2_8, h2_9, h2_10, h2_11, h3_4, h3_5, h3_6, h3_7, h3_8, h3_9, h3_10, h3_11, h4_5, h4_6, h4_7, h4_8, h4_9, h4_10, h4_11, h5_6, h5_7, h5_8, h5_9, h5_10, h5_11, h6_7, h6_8, h6_9, h6_10, h6_11, h7_8, h7_9, h7_10, h7_11, h8_9, h8_10, h8_11, h9_10, h9_11, h10_11⟩ := pins_distinct hP
  obtain ⟨l1, l2, l3, l4, l5, l6, la, lb, lc, lck, llt, loe⟩ := pins_lt16 hP
  have e1 : decide (count &&& 1 ≠ 0) = count.testBit 0 := by
    have h := and_pow_testBit count 0
    rw [show (2 : Nat) ^ 0 = 1 from by norm_num] at h
    exact h
  have e2 : decide (count &&& 2 ≠ 0) = count.testBit 1 := by
    have h := and_pow_testBit count 1
    rw [show (2 : Nat) ^ 1 = 2 from by norm_num] at h
    exact h
  have e4 : decide (count &&& 4 ≠ 0) = count.testBit 2 := by
    have h := and_pow_testBit count 2
    rw [show (2 : Nat) ^ 2 = 4 from by norm_num] at h
    exact h
  have hndaddr : (((addrList P count).map Prod.snd)).Nodup := by
    simpa [addrList] using nodup_abc P hP
  have hndabc : ((([(true, P.a), (true, P.b), (true, P.c)] : List (Bool × Nat)).map Prod.snd)).Nodup := by
    simpa using nodup_abc P hP
  have h65535 : (65535 : Nat) = 2 ^ 16 - 1 := by norm_num
  have hXfalse : ∀ pos, (pos = P.a ∨ pos = P.b ∨ pos = P.c) →
      (X &&& bnot16 ((PINS P).a + (PINS P).b + (PINS P).c)).testBit pos = false := by
    intro pos hpos
    rw [Nat.testBit_and, bnot16, Nat.testBit_xor, h65535, Nat.testBit_two_pow_sub_one,
      abc_sum_eq, testBit_pinWord _ hndabc]
    rcases hpos with rfl | rfl | rfl <;> simp [la, lb, lc, (h6_7).symm, (h6_8).symm, h6_7, (h7_8).symm, h6_8, h7_8]
  have hXf : ∀ e2x ∈ addrList P count,
      (X &&& bnot16 ((PINS P).a + (PINS P).b + (PINS P).c)).testBit e2x.2 = false := by
    intro e2x he2x
    simp only [addrList, List.mem_cons, List.not_mem_nil, or_false] at he2x
    rcases he2x with rfl | rfl | rfl
    · exact hXfalse P.a (Or.inl rfl)
    · exact hXfalse P.b (Or.inr (Or.inl rfl))
    · exact hXfalse P.c (Or.inr (Or.inr rfl))
  rw [addrWord_eq]
  refine ⟨?_, ?_, ?_⟩
  · rw [testBit_add_pinWord _ _ hndaddr hXf, hXfalse P.a (Or.inl rfl)]
    simp [addrList, e1, e2, e4, (h6_7).symm, (h6_8).symm, h6_7, (h7_8).symm, h6_8, h7_8]
  · rw [testBit_add_pinWord _ _ hndaddr hXf, hXfalse P.b (Or.inr (Or.inl rfl))]
    simp [addrList, e1, e2, e4, (h6_7).symm, (h6_8).symm, h6_7, (h7_8).symm, h6_8, h7_8]
  · rw [testBit_add_pinWord _ _ hndaddr hXf, hXfalse P.c (Or.inr (Or.inr rfl))]
    simp [addrList, e1, e2, e4, (h6_7).symm, (h6_8).symm, h6_7, (h7_8).symm, h6_8, h7_8]

theorem bcmRow_getD_w2 (P : Pins) (mask obIn address count : Nat) (row : List Cell) :
    ((bcmRow P mask obIn address count row).1).getD (2 * row.length + 1) 0 =
      (((((row.foldl (fun _ e => bcmElementWord P mask address e - (PINS P).clock) obIn)
            ||| (PINS P).oe) &&& bnot16 (PINS P).latch) ||| (PINS P).latch)
          &&& bnot16 ((PINS P).a + (PINS P).b + (PINS P).c)) + addrWord P count := by
  simp only [bcmRow]
  rw [getD_pairs_append]
  rfl

theorem bcmRow_getD_elem (P : Pins) (mask obIn address count : Nat) (row : List Cell)
    (j : Nat) (hj : j < row.length) :
    ((bcmRow P mask obIn address count row).1).getD (2 * j) 0 =
      bcmElementWord P mask address (row.getD j ⟨0, 0, 0, 0, 0, 0⟩) := by
  simp only [bcmRow]
  exact getD_pairs_elem _ _ row _ j 0 ⟨0, 0, 0, 0, 0, 0⟩ hj

theorem bcmRow_addrBits (P : Pins) (hP : P.valid) (mask obIn address count : Nat)
    (row : List Cell) :
    (((bcmRow P mask obIn address count row).1).getD (2 * row.length + 1) 0).testBit P.a
        = count.testBit 0 ∧
    (((bcmRow P mask obIn address count row).1).getD (2 * row.length + 1) 0).testBit P.b
        = count.testBit 1 ∧
    (((bcmRow P mask obIn address count row).1).getD (2 * row.length + 1) 0).testBit P.c
        = count.testBit 2 := by
  rw [bcmRow_getD_w2]
  exact bcm_ob3_addrBits P hP _ count

/-! ### Row loops -/

theorem outputSingleGo_getD (P : Pins) (t : Nat) :
    ∀ (data : List (List Cell)) (c r : Nat), r < data.length →
      (outputSingleGo P t c data).getD r [] = pwmRow P t (c + r) (data.getD r []) := by
  intro data
  induction data with
  | nil => intro c r hr; simp at hr
  | cons row rest ih =>
    intro c r hr
    cases r with
    | zero => simp [outputSingleGo]
    | succ r =>
      simp only [outputSingleGo, List.getD_cons_succ]
      rw [ih (c + 1) r (by simpa using hr)]
      congr 1
      omega

theorem bcmGo_length (P : Pins) (mask : Nat) :
    ∀ (data : List (List Cell)) (ob addr count : Nat),
      ((bcmGo P mask ob addr count data).1).length = data.length := by
  intro data
  induction data with
  | nil => intro ob addr count; rfl
  | cons row rest ih =>
    intro ob addr count
    simp only [bcmGo]
    rw [List.length_cons, ih, List.length_cons]

theorem bcmGo_getD (P : Pins) (mask : Nat) :
    ∀ (data : List (List Cell)) (ob addr count : Nat),
      (addr = (PINS P).oe ∨ ∃ n, addr = addrWord P n) →
      ∀ r, r < data.length →
        ∃ ob2 addr2, (addr2 = (PINS P).oe ∨ ∃ n, addr2 = addrWord P n) ∧
          ((bcmGo P mask ob addr count data).1).getD r [] =
            ((bcmRow P mask ob2 addr2 (count + r) (data.getD r [])).1) := by
  intro data
  induction data with
  | nil => intro ob addr count _ r hr; simp at hr
  | cons row rest ih =>
    intro ob addr count haddr r hr
    cases r with
    | zero =>
      refine ⟨ob, addr, haddr, ?_⟩
      simp only [bcmGo]
      rw [List.getD_cons_zero, Nat.add_zero, List.getD_cons_zero]
    | succ r =>
      simp only [bcmGo]
      rw [List.getD_cons_succ, List.getD_cons_succ]
      obtain ⟨ob2, addr2, ha2, heq⟩ := ih (bcmRow P mask ob addr count row).2.1
        (bcmRow P mask ob addr count row).2.2 (count + 1) (Or.inr ⟨count, rfl⟩) r
        (by simpa using hr)
      have hc : count + 1 + r = count + (r + 1) := by omega
      rw [hc] at heq
      exact ⟨ob2, addr2, ha2, heq⟩

theorem outputSingleBcm_getD (P : Pins) (bit : Nat) (data : Frame) (r : Nat)
    (hr : r < data.length) :
    ∃ ob2 addr2, (addr2 = (PINS P).oe ∨ ∃ n, addr2 = addrWord P n) ∧
      (outputSingleBcm P bit data).getD r [] =
        ((bcmRow P (1 <<< bit) ob2 addr2 r (data.getD r [])).1) := by
  obtain ⟨ob2, addr2, ha2, heq⟩ :=
    bcmGo_getD P (1 <<< bit) data 0 ((PINS P).oe) 0 (Or.inl rfl) r hr
  rw [Nat.zero_add] at heq
  refine ⟨ob2, addr2, ha2, ?_⟩
  unfold outputSingleBcm
  dsimp only
  rw [List.getD_eq_getElem?_getD, List.getElem?_append_left (by rw [bcmGo_length]; omega),
    ← List.getD_eq_getElem?_getD, heq]

/-! ### Row address claim -/

/-- C2: in both output passes, for every scanned buffer row `r`, the word
driven right after latching row `r` carries the binary representation of `r`
on the row-address lines: bit 0 of `r` on line A, bit 1 on line B, bit 2 on
line C.  (This build has no D or F address line: the `Pins` record of the
source stops at C, so the claim's D/F clauses are vacuous.)  In the
threshold-PWM pass the address-bearing write is the third write after the
per-cell writes of the row; in the BCM pass it is the second. -/
theorem row_address_encodes_index (P : Pins) (hP : P.valid) :
    (∀ (brightness : Nat) (data : Frame) (r : Nat), r < data.length →
      ((((outputSingle P brightness data).getD r []).getD
          (2 * (data.getD r []).length + 2) 0).testBit P.a = r.testBit 0) ∧
      ((((outputSingle P brightness data).getD r []).getD
          (2 * (data.getD r []).length + 2) 0).testBit P.b = r.testBit 1) ∧
      ((((outputSingle P brightness data).getD r []).getD
          (2 * (data.getD r []).length + 2) 0).testBit P.c = r.testBit 2)) ∧
    (∀ (bit : Nat) (data : Frame) (r : Nat), r < data.length →
      ((((outputSingleBcm P bit data).getD r []).getD
          (2 * (data.getD r []).length + 1) 0).testBit P.a = r.testBit 0) ∧
      ((((outputSingleBcm P bit data).getD r []).getD
          (2 * (data.getD r []).length + 1) 0).testBit P.b = r.testBit 1) ∧
      ((((outputSingleBcm P bit data).getD r []).getD
          (2 * (data.getD r []).length + 1) 0).testBit P.c = r.testBit 2)) := by
  constructor
  · intro brightness data r hr
    simp only [outputSingle]
    rw [outputSingleGo_getD P brightness data 0 r hr, Nat.zero_add]
    exact pwmRow_addrBits P hP brightness r (data.getD r [])
  · intro bit data r hr
    obtain ⟨ob2, addr2, _, heq⟩ := outputSingleBcm_getD P bit data r hr
    rw [heq]
    exact bcmRow_addrBits P hP (1 <<< bit) ob2 addr2 r (data.getD r [])

theorem row_address_encodes_index_witness :
    ((((outputSingle examplePins 7 [[], [], []]).getD 2 []).getD 2 0).testBit
        examplePins.a = (2 : Nat).testBit 0) ∧
    ((((outputSingle examplePins 7 [[], [], []]).getD 2 []).getD 2 0).testBit
        examplePins.b = (2 : Nat).testBit 1) ∧
    ((((outputSingle examplePins 7 [[], [], []]).getD 2 []).getD 2 0).testBit
        examplePins.c = (2 : Nat).testBit 2) ∧
    ((((outputSingleBcm examplePins 5 [[], [], []]).getD 2 []).getD 1 0).testBit
        examplePins.a = (2 : Nat).testBit 0) ∧
    ((((outputSingleBcm examplePins 5 [[], [], []]).getD 2 []).getD 1 0).testBit
        examplePins.b = (2 : Nat).testBit 1) ∧
    ((((outputSingleBcm examplePins 5 [[], [], []]).getD 2 []).getD 1 0).testBit
        examplePins.c = (2 : Nat).testBit 2) := by
  obtain ⟨hpwm, hbcm⟩ := row_address_encodes_index examplePins (by decide)
  obtain ⟨p1, p2, p3⟩ := hpwm 7 [[], [], []] 2 (by decide)
  obtain ⟨b1, b2, b3⟩ := hbcm 5 [[], [], []] 2 (by decide)
  exact ⟨p1, p2, p3, b1, b2, b3⟩

/-! ### Threshold-PWM cycle claim -/

/-- C5: one threshold-PWM cycle (`output`) performs exactly
`brightness_count = 2^bits - 1` full-frame passes; the pass thresholds are
`min(255, (i+1) * brightness_step)` for `i = 0 .. count-1`, strictly
increasing and therefore each used exactly once (for `brightness_bits = 3`
the sequence is `32, 64, 96, 128, 160, 192, 224`); and within each pass a
color bit is shifted out as 1 exactly when the cell's duty value reaches the
pass's threshold. -/
theorem pwm_cycle_thresholds (bits : Nat) (h1 : 1 ≤ bits) (h2 : bits ≤ 8)
    (P : Pins) (hP : P.valid) (data : Frame) :
    (thresholds (2 ^ (8 - bits)) (2 ^ bits - 1)).length = 2 ^ bits - 1 ∧
    (∀ i, i < 2 ^ bits - 1 →
      (thresholds (2 ^ (8 - bits)) (2 ^ bits - 1)).getD i 0 =
        min 255 ((i + 1) * 2 ^ (8 - bits))) ∧
    List.Chain' (· < ·) (thresholds (2 ^ (8 - bits)) (2 ^ bits - 1)) ∧
    (thresholds (2 ^ (8 - bits)) (2 ^ bits - 1)).Nodup ∧
    thresholds (2 ^ (8 - 3)) (2 ^ 3 - 1) = [32, 64, 96, 128, 160, 192, 224] ∧
    (outputTrace P (2 ^ (8 - bits)) (2 ^ bits - 1) data).length = 2 ^ bits - 1 ∧
    (∀ i r j, i < 2 ^ bits - 1 → r < data.length → j < (data.getD r []).length →
      ((((((outputTrace P (2 ^ (8 - bits)) (2 ^ bits - 1) data).getD i []).getD r []).getD
          (2 * j) 0).testBit P.r1) =
        decide ((thresholds (2 ^ (8 - bits)) (2 ^ bits - 1)).getD i 0 ≤
          ((data.getD r []).getD j ⟨0, 0, 0, 0, 0, 0⟩).e0)) ∧
      ((((((outputTrace P (2 ^ (8 - bits)) (2 ^ bits - 1) data).getD i []).getD r []).getD
          (2 * j) 0).testBit P.g1) =
        decide ((thresholds (2 ^ (8 - bits)) (2 ^ bits - 1)).getD i 0 ≤
          ((data.getD r []).getD j ⟨0, 0, 0, 0, 0, 0⟩).e1)) ∧
      ((((((outputTrace P (2 ^ (8 - bits)) (2 ^ bits - 1) data).getD i []).getD r []).getD
          (2 * j) 0).testBit P.b1) =
        decide ((thresholds (2 ^ (8 - bits)) (2 ^ bits - 1)).getD i 0 ≤
          ((data.getD r []).getD j ⟨0, 0, 0, 0, 0, 0⟩).e2)) ∧
      ((((((outputTrace P (2 ^ (8 - bits)) (2 ^ bits - 1) data).getD i []).getD r []).getD
          (2 * j) 0).testBit P.r2) =
        decide ((thresholds (2 ^ (8 - bits)) (2 ^ bits - 1)).getD i 0 ≤
          ((data.getD r []).getD j ⟨0, 0, 0, 0, 0, 0⟩).e3)) ∧
      ((((((outputTrace P (2 ^ (8 - bits)) (2 ^ bits - 1) data).getD i []).getD r []).getD
          (2 * j) 0).testBit P.g2) =
        decide ((thresholds (2 ^ (8 - bits)) (2 ^ bits - 1)).getD i 0 ≤
          ((data.getD r []).getD j ⟨0, 0, 0, 0, 0, 0⟩).e4)) ∧
      ((((((outputTrace P (2 ^ (8 - bits)) (2 ^ bits - 1) data).getD i []).getD r []).getD
          (2 * j) 0).testBit P.b2) =
        decide ((thresholds (2 ^ (8 - bits)) (2 ^ bits - 1)).getD i 0 ≤
          ((data.getD r []).getD j ⟨0, 0, 0, 0, 0, 0⟩).e5))) := by
  have hstep1 : 1 ≤ 2 ^ (8 - bits) := Nat.one_le_two_pow
  have h256 : 2 ^ bits * 2 ^ (8 - bits) = 256 := by
    rw [← pow_add]
    have hb : bits + (8 - bits) = 8 := by omega
    rw [hb]
    norm_num
  have hprod : ∀ k, k < 2 ^ bits - 1 → (k + 1) * 2 ^ (8 - bits) ≤ 255 := by
    intro k hk
    have hmul : (k + 1) * 2 ^ (8 - bits) ≤ (2 ^ bits - 1) * 2 ^ (8 - bits) :=
      Nat.mul_le_mul_right _ (by omega)
    have hsub : (2 ^ bits - 1) * 2 ^ (8 - bits) = 256 - 2 ^ (8 - bits) := by
      rw [Nat.sub_mul, one_mul, h256]
    omega
  have hgetD : ∀ i, i < 2 ^ bits - 1 →
      (thresholds (2 ^ (8 - bits)) (2 ^ bits - 1)).getD i 0 = (i + 1) * 2 ^ (8 - bits) := by
    intro i hi
    unfold thresholds
    rw [getD_range_map _ _ _ _ hi]
    exact Nat.min_eq_left (hprod i hi)
  have hpair : List.Pairwise (· < ·) (thresholds (2 ^ (8 - bits)) (2 ^ bits - 1)) := by
    unfold thresholds
    rw [List.pairwise_map]
    refine List.Pairwise.imp_of_mem ?_ (List.pairwise_lt_range _)
    intro a b ha hb hab
    rw [List.mem_range] at ha hb
    unfold satMul8
    rw [Nat.min_eq_left (hprod a ha), Nat.min_eq_left (hprod b hb)]
    exact Nat.mul_lt_mul_of_lt_of_le (by omega) (le_refl _) (by omega)
  refine ⟨by simp [thresholds], ?_, hpair.chain', hpair.imp (fun h => Nat.ne_of_lt h),
    by decide, by simp [outputTrace, thresholds], ?_⟩
  · intro i hi
    rw [hgetD i hi]
    exact (Nat.min_eq_right (hprod i hi)).symm
  · intro i r j hi hr hj
    have hlen : i < (thresholds (2 ^ (8 - bits)) (2 ^ bits - 1)).length := by
      simp only [thresholds, List.length_map, List.length_range]
      omega
    have htr : (outputTrace P (2 ^ (8 - bits)) (2 ^ bits - 1) data).getD i [] =
        outputSingle P ((thresholds (2 ^ (8 - bits)) (2 ^ bits - 1)).getD i 0) data := by
      unfold outputTrace
      exact getD_map _ _ i [] 0 hlen
    rw [htr]
    simp only [outputSingle]
    rw [outputSingleGo_getD P _ data 0 r hr, Nat.zero_add,
      pwmRow_getD_elem P _ r (data.getD r []) j hj]
    exact pwmElementWord_testBits P hP _ _

theorem pwm_cycle_thresholds_witness :
    ((((outputTrace examplePins (2 ^ (8 - 3)) (2 ^ 3 - 1)
        [[⟨200, 100, 0, 31, 32, 255⟩]]).getD 0 []).getD 0 []).getD 0 0).testBit
      examplePins.r1 =
      decide ((thresholds (2 ^ (8 - 3)) (2 ^ 3 - 1)).getD 0 0 ≤ (200 : Nat)) :=
  ((pwm_cycle_thresholds 3 (by decide) (by decide) examplePins (by decide)
    [[⟨200, 100, 0, 31, 32, 255⟩]]).2.2.2.2.2.2 0 0 0 (by decide) (by decide) (by decide)).1

/-! ### BCM cycle claim -/

/-- C6 (amended): one BCM cycle (`output_bcm`) scans exactly
`brightness_bits` bit-planes, namely bit positions `(8 - bits) .. 7` of each
duty value, in ascending order, i.e. from the least-significant used plane up
to bit 7 — not most-significant-first as originally claimed; and within the
plane of loop index `k` (bit position `8 - bits + k`) a color bit is shifted
out as 1 exactly when `duty AND 2^(8-bits+k)` is nonzero. -/
theorem bcm_planes_ascending (bits : Nat) (h1 : 1 ≤ bits) (h2 : bits ≤ 8)
    (P : Pins) (hP : P.valid) (data : Frame) (base : Nat) :
    (bcmPlanes bits).length = bits ∧
    (∀ k, k < bits → (bcmPlanes bits).getD k 0 = 8 - bits + k) ∧
    List.Chain' (· < ·) (bcmPlanes bits) ∧
    (outputBcm P bits base data).length = bits ∧
    (∀ k r j, k < bits → r < data.length → j < (data.getD r []).length →
      (((((((outputBcm P bits base data).getD k ([], 0)).1).getD r []).getD (2 * j) 0).testBit
          P.r1) =
        decide (((data.getD r []).getD j ⟨0, 0, 0, 0, 0, 0⟩).e0 &&& 2 ^ (8 - bits + k) ≠ 0)) ∧
      (((((((outputBcm P bits base data).getD k ([], 0)).1).getD r []).getD (2 * j) 0).testBit
          P.g1) =
        decide (((data.getD r []).getD j ⟨0, 0, 0, 0, 0, 0⟩).e1 &&& 2 ^ (8 - bits + k) ≠ 0)) ∧
      (((((((outputBcm P bits base data).getD k ([], 0)).1).getD r []).getD (2 * j) 0).testBit
          P.b1) =
        decide (((data.getD r []).getD j ⟨0, 0, 0, 0, 0, 0⟩).e2 &&& 2 ^ (8 - bits + k) ≠ 0)) ∧
      (((((((outputBcm P bits base data).getD k ([], 0)).1).getD r []).getD (2 * j) 0).testBit
          P.r2) =
        decide (((data.getD r []).getD j ⟨0, 0, 0, 0, 0, 0⟩).e3 &&& 2 ^ (8 - bits + k) ≠ 0)) ∧
      (((((((outputBcm P bits base data).getD k ([], 0)).1).getD r []).getD (2 * j) 0).testBit
          P.g2) =
        decide (((data.getD r []).getD j ⟨0, 0, 0, 0, 0, 0⟩).e4 &&& 2 ^ (8 - bits + k) ≠ 0)) ∧
      (((((((outputBcm P bits base data).getD k ([], 0)).1).getD r []).getD (2 * j) 0).testBit
          P.b2) =
        decide (((data.getD r []).getD j ⟨0, 0, 0, 0, 0, 0⟩).e5 &&& 2 ^ (8 - bits + k) ≠ 0))) := by
  refine ⟨by simp [bcmPlanes], ?_, ?_, by simp [outputBcm], ?_⟩
  · intro k hk
    unfold bcmPlanes
    rw [getD_range_map _ _ _ _ hk]
    omega
  · unfold bcmPlanes
    apply List.Pairwise.chain'
    rw [List.pairwise_map]
    refine List.Pairwise.imp ?_ (List.pairwise_lt_range _)
    intro a b hab
    omega
  · intro k r j hk hr hj
    have hout : (outputBcm P bits base data).getD k ([], 0) =
        (outputSingleBcm P (k + (8 - bits)) data,
          base * ((1 <<< k) % 256) % 256) := by
      unfold outputBcm
      rw [getD_range_map _ _ _ _ hk]
    rw [hout]
    obtain ⟨ob2, addr2, ha2, heq⟩ := outputSingleBcm_getD P (k + (8 - bits)) data r hr
    rw [heq, bcmRow_getD_elem P _ ob2 addr2 r (data.getD r []) j hj]
    have hmask : (1 : Nat) <<< (k + (8 - bits)) = 2 ^ (8 - bits + k) := by
      rw [Nat.one_shiftLeft, Nat.add_comm]
    rw [hmask]
    exact bcmElementWord_testBits P hP _ addr2 _ ha2

theorem bcm_planes_ascending_witness :
    ((((((outputBcm examplePins 4 9 [[⟨200, 100, 0, 31, 32, 255⟩]]).getD 1 ([], 0)).1).getD
        0 []).getD 0 0).testBit examplePins.r1) =
      decide ((200 : Nat) &&& 2 ^ (8 - 4 + 1) ≠ 0) :=
  ((bcm_planes_ascending 4 (by decide) (by decide) examplePins (by decide)
    [[⟨200, 100, 0, 31, 32, 255⟩]] 9).2.2.2.2 1 0 0 (by decide) (by decide) (by decide)).1

end Hub75
